import Mathlib

/-!
# UrJTAG: AMD flash driver (`src/jtag/src/flash-amd.c`) and front end (`src/jtag/src/readmem.c`)

A shallow embedding of the AMD/Fujitsu standard-command-set flash driver and
of `detectflash` and `readmem`, with theorems about the command sequences, the
status pollers and the memory dump loop.

Modelling conventions

* `uint32_t` values are natural numbers; where the C code computes a value that
  can leave 32 bits (`adr << o`, `adr + 8`) the result is reduced with `u32`.
* `int` results are integers.
* The chain handle `parts *ps` carries the state of the bus behind it.  The bus
  is an arbitrary deterministic machine (`BusDriver`): a read may depend on
  every earlier access and returns a word together with the next bus state.
* Every `bus_read` / `bus_write` is appended to `parts.log`, in program order.
* `usleep` only accumulates the requested microseconds in `parts.slept`.
* `printf` output is not modelled; the file-level flag `dbg` is constantly `0`
  in the source, so the `if (dbg)` branches only select what is printed.
-/

namespace FlashAmd

/-! ## Bus model -/

/-- Reduction of a natural number to an unsigned 32-bit word. -/
def u32 (n : Nat) : Nat := n % 4294967296

/-- One access on the bus, as seen from the driver. -/
inductive Access where
  | read (adr val : Nat)
  | write (adr data : Nat)
deriving DecidableEq, Repr

/-- The bus behind `parts *ps`: a deterministic machine over states `σ`. -/
structure BusDriver (σ : Type) where
  /-- The word returned by a read of `adr` and the state after that read. -/
  read : σ → Nat → Nat × σ
  /-- The state after a write of `data` to `adr`. -/
  write : σ → Nat → Nat → σ

/-- What `parts *ps` stands for: the bus state, the accesses issued so far and
the total time slept. -/
structure parts (σ : Type) where
  st : σ
  log : List Access
  slept : Nat

/-- The call `bus_read( ps, adr )`: returns a 32-bit word. -/
def bus_read {σ : Type} (drv : BusDriver σ) (ps : parts σ) (adr : Nat) : Nat × parts σ :=
  let v := u32 (drv.read ps.st adr).1
  (v, { st := (drv.read ps.st adr).2, log := ps.log ++ [Access.read adr v], slept := ps.slept })

/-- The call `bus_write( ps, adr, data )`. -/
def bus_write {σ : Type} (drv : BusDriver σ) (ps : parts σ) (adr data : Nat) : parts σ :=
  { st := drv.write ps.st adr data, log := ps.log ++ [Access.write adr data], slept := ps.slept }

/-- The call `usleep( n )`. -/
def usleep {σ : Type} (ps : parts σ) (n : Nat) : parts σ :=
  { st := ps.st, log := ps.log, slept := ps.slept + n }

/-! ## Identification data -/

/-- Modelled from the spec: the identification part of `cfi_query_structure_t`
(declared in `flash/cfi.h`, which is not among the sources).  The spec lists a
primary vendor/command-set code and an alternate vendor code. -/
structure cfi_identification_string_t where
  pri_id_code : Nat
  alt_id_code : Nat

/-- Modelled from the spec: `cfi_query_structure_t` of `flash/cfi.h`; every part
other than the identification string is kept as an uninterpreted payload. -/
structure cfi_query_structure_t where
  identification_string : cfi_identification_string_t
  rest : List Nat

/-! ## The driver -/

/-- Model of `amd_flash_autodetect`: `cfi->identification_string.pri_id_code == CFI_VENDOR_AMD_SCS`.
The constant `CFI_VENDOR_AMD_SCS` comes from `flash/cfi.h` and is a parameter. -/
def amd_flash_autodetect {σ : Type} (CFI_VENDOR_AMD_SCS : Nat) (_ps : parts σ)
    (cfi : cfi_query_structure_t) : Int :=
  if cfi.identification_string.pri_id_code = CFI_VENDOR_AMD_SCS then 1 else 0

/-- The shift `int o = 2` used by the driver. -/
def o : Nat := 2

/-- The mask `dq7mask = ((1 << 7) << 16) + (1 << 7)`. -/
def dq7mask : Nat := ((1 <<< 7) <<< 16) + (1 <<< 7)

/-- The mask `dq5mask = ((1 << 5) << 16) + (1 << 5)`. -/
def dq5mask : Nat := ((1 <<< 5) <<< 16) + (1 <<< 5)

/-- The mask `togglemask = ((1 << 6) << 16) + (1 << 6)`. -/
def togglemask : Nat := ((1 <<< 6) <<< 16) + (1 <<< 6)

/-- The local `bit7 = (data & (1 << 7)) != 0` of `amdstatus29`. -/
def bit7 (data : Nat) : Nat := if data &&& (1 <<< 7) ≠ 0 then 1 else 0

/-- The test `((data1 & dq7mask) == dq7mask) == bit7` of `amdstatus29`; the
inner comparison yields the C truth value `1` or `0`. -/
def dq7test (data1 data : Nat) : Bool :=
  decide ((if data1 &&& dq7mask = dq7mask then 1 else 0) = bit7 data)

/-- The test `(data1 & dq5mask) == dq5mask` of `amdstatus29`. -/
def dq5test (data1 : Nat) : Bool := decide (data1 &&& dq5mask = dq5mask)

/-- The code of `amdstatus29` after its loop: one more read and the final test. -/
def amdstatus29_final {σ : Type} (drv : BusDriver σ) (ps : parts σ) (adr data : Nat) :
    Int × parts σ :=
  let r := bus_read drv ps (u32 (adr <<< o))
  if dq7test r.1 data then (1, r.2) else (0, r.2)

/-- The loop `for (timeout = 0; timeout < 100; timeout++)` of `amdstatus29`
followed by the code after it; the first argument is the number of iterations
still allowed, `100 - timeout`.  The first read of an iteration is overwritten
by the second one. -/
def amdstatus29_loop {σ : Type} (drv : BusDriver σ) (adr data : Nat) :
    Nat → parts σ → Int × parts σ
  | 0, ps => amdstatus29_final drv ps adr data
  | n + 1, ps =>
    let r1 := bus_read drv ps (u32 (adr <<< o))
    let r2 := bus_read drv r1.2 (u32 (adr <<< o))
    if dq7test r2.1 data then (1, r2.2)
    else if dq5test r2.1 then amdstatus29_final drv r2.2 adr data
    else amdstatus29_loop drv adr data n (usleep r2.2 100)

/-- Model of `amdstatus29` (data polling, [1] page 29). -/
def amdstatus29 {σ : Type} (drv : BusDriver σ) (ps : parts σ) (adr data : Nat) :
    Int × parts σ :=
  amdstatus29_loop drv adr data 100 ps

/-- The loop `for (timeout = 0; timeout < 100; timeout++)` of `amdstatus`
followed by `return 0`; the first argument is the number of iterations still
allowed, `100 - timeout`. -/
def amdstatus_loop {σ : Type} (drv : BusDriver σ) (adr : Nat) :
    Nat → parts σ → Int × parts σ
  | 0, ps => (0, ps)
  | n + 1, ps =>
    let r1 := bus_read drv ps adr
    let r2 := bus_read drv r1.2 adr
    if r1.1 &&& togglemask = r2.1 &&& togglemask then (1, r2.2)
    else amdstatus_loop drv adr n (usleep r2.2 100)

/-- Model of `amdstatus` (toggle-bit polling, [1] page 30); `data` is unused,
as in the source. -/
def amdstatus {σ : Type} (drv : BusDriver σ) (ps : parts σ) (adr : Nat) (_data : Int) :
    Int × parts σ :=
  amdstatus_loop drv adr 100 ps

/-- Model of `amd_flash_read_array`: the AMD reset command. -/
def amd_flash_read_array {σ : Type} (drv : BusDriver σ) (ps : parts σ) : parts σ :=
  bus_write drv ps 0x0 0x00F000F0

/-- Model of `amdisprotected`. -/
def amdisprotected {σ : Type} (drv : BusDriver σ) (ps : parts σ) (adr : Nat) :
    Int × parts σ :=
  let ps1 := bus_write drv ps (0x0555 <<< o) 0x00aa00aa
  let ps2 := bus_write drv ps1 (0x02aa <<< o) 0x00550055
  let ps3 := bus_write drv ps2 (0x0555 <<< o) 0x00900090
  let r := bus_read drv ps3 (u32 (adr + (0x0002 <<< 2)))
  let ps4 := amd_flash_read_array drv r.2
  (if r.1 &&& 0x00ff00ff ≠ 0 then 1 else 0, ps4)

/-- Model of `amd_flash_print_info`; the result carries `mid`, `cid` and `prot`,
the three values the function prints. -/
def amd_flash_print_info {σ : Type} (drv : BusDriver σ) (ps : parts σ) :
    (Nat × Nat × Nat) × parts σ :=
  let ps1 := bus_write drv ps (0x0555 <<< o) 0x00aa00aa
  let ps2 := bus_write drv ps1 (0x02aa <<< o) 0x00550055
  let ps3 := bus_write drv ps2 (0x0555 <<< o) 0x00900090
  let r1 := bus_read drv ps3 (0x00 <<< o)
  let r2 := bus_read drv r1.2 (0x01 <<< o)
  let r3 := bus_read drv r2.2 (0x02 <<< o)
  let ps4 := amd_flash_read_array drv r3.2
  ((r1.1 &&& 0xFFFF, r2.1 &&& 0xFFFF, r3.1 &&& 0xFF), ps4)

/-- Model of `amd_flash_erase_block`.  The constant `CFI_INTEL_ERROR_UNKNOWN`
comes from `flash/intel.h` and is a parameter. -/
def amd_flash_erase_block {σ : Type} (CFI_INTEL_ERROR_UNKNOWN : Int) (drv : BusDriver σ)
    (ps : parts σ) (adr : Nat) : Int × parts σ :=
  let ps1 := bus_write drv ps (0x0555 <<< o) 0x00aa00aa
  let ps2 := bus_write drv ps1 (0x02aa <<< o) 0x00550055
  let ps3 := bus_write drv ps2 (0x0555 <<< o) 0x00800080
  let ps4 := bus_write drv ps3 (0x0555 <<< o) 0x00aa00aa
  let ps5 := bus_write drv ps4 (0x02aa <<< o) 0x00550055
  let ps6 := bus_write drv ps5 adr 0x00300030
  let s := amdstatus drv ps6 adr 0xffff
  if s.1 ≠ 0 then (0, amd_flash_read_array drv s.2)
  else (CFI_INTEL_ERROR_UNKNOWN, amd_flash_read_array drv s.2)

/-- Model of `amd_flash_unlock_block`: prints a note and returns `0`. -/
def amd_flash_unlock_block {σ : Type} (_drv : BusDriver σ) (ps : parts σ) (_adr : Nat) :
    Int × parts σ :=
  (0, ps)

/-- Model of `amd_flash_program`; the result is `!status`. -/
def amd_flash_program {σ : Type} (drv : BusDriver σ) (ps : parts σ) (adr data : Nat) :
    Int × parts σ :=
  let ps1 := bus_write drv ps (0x0555 <<< o) 0x00aa00aa
  let ps2 := bus_write drv ps1 (0x02aa <<< o) 0x00550055
  let ps3 := bus_write drv ps2 (0x0555 <<< o) 0x00A000A0
  let ps4 := bus_write drv ps3 adr data
  let s := amdstatus drv ps4 adr data
  (if s.1 = 0 then 1 else 0, s.2)

/-! ## Vocabulary for the polling theorems -/

/-- The bus state after `n` successive reads of `adr`, starting in `s`. -/
def afterReads {σ : Type} (drv : BusDriver σ) (adr : Nat) : Nat → σ → σ
  | 0, s => s
  | n + 1, s => afterReads drv adr n (drv.read s adr).2

/-- The word returned by read number `i` (counted from `0`) of a run of
successive reads of `adr` that starts in bus state `s`. -/
def readVal {σ : Type} (drv : BusDriver σ) (adr : Nat) (s : σ) (i : Nat) : Nat :=
  u32 (drv.read (afterReads drv adr i s) adr).1

/-- The log entries of the first `n` successive reads of `adr` from state `s`. -/
def readLog {σ : Type} (drv : BusDriver σ) (adr : Nat) (s : σ) (n : Nat) : List Access :=
  (List.range n).map (fun i => Access.read adr (readVal drv adr s i))

/-- Polling iteration `k` (counted from `1`) of `amdstatus` shows a stable pair:
its two reads, numbers `2k-2` and `2k-1` of the run, agree under `togglemask`. -/
def stableAt {σ : Type} (drv : BusDriver σ) (adr : Nat) (s : σ) (k : Nat) : Prop :=
  readVal drv adr s (2 * (k - 1)) &&& togglemask
    = readVal drv adr s (2 * (k - 1) + 1) &&& togglemask

/-- A command sequence: the writes `steps`, issued in order with nothing in
between (the repeated `bus_write` calls that open every driver operation). -/
def sequence {σ : Type} (drv : BusDriver σ) (ps : parts σ) : List (Nat × Nat) → parts σ
  | [] => ps
  | (adr, data) :: steps => sequence drv (bus_write drv ps adr data) steps

/-- The log entries of a command sequence. -/
def writeLog (steps : List (Nat × Nat)) : List Access :=
  steps.map (fun aw => Access.write aw.1 aw.2)

/-- The six writes that open `amd_flash_erase_block`, as a command sequence. -/
def eraseSteps (adr : Nat) : List (Nat × Nat) :=
  [(0x0555 <<< 2, 0x00AA00AA), (0x02AA <<< 2, 0x00550055), (0x0555 <<< 2, 0x00800080),
   (0x0555 <<< 2, 0x00AA00AA), (0x02AA <<< 2, 0x00550055), (adr, 0x00300030)]

/-- The four writes that open `amd_flash_program`, as a command sequence. -/
def programSteps (adr data : Nat) : List (Nat × Nat) :=
  [(0x0555 <<< 2, 0x00AA00AA), (0x02AA <<< 2, 0x00550055), (0x0555 <<< 2, 0x00A000A0),
   (adr, data)]

/-- The three writes that put the chip into autoselect mode, as a command sequence. -/
def autoselectSteps : List (Nat × Nat) :=
  [(0x0555 <<< 2, 0x00AA00AA), (0x02AA <<< 2, 0x00550055), (0x0555 <<< 2, 0x00900090)]

/-- The trusted (second) read of polling iteration `k` (counted from `1`) of
`amdstatus29`: read number `2k-1` of the run of reads of `adr << o`. -/
def trustedRead {σ : Type} (drv : BusDriver σ) (adr : Nat) (s : σ) (k : Nat) : Nat :=
  readVal drv (u32 (adr <<< o)) s (2 * (k - 1) + 1)

/-- The trusted read of iteration `k` passes the DQ7 test of `amdstatus29`. -/
def matchAt {σ : Type} (drv : BusDriver σ) (adr data : Nat) (s : σ) (k : Nat) : Prop :=
  dq7test (trustedRead drv adr s k) data = true

/-- The trusted read of iteration `k` shows the timeout bits DQ5 set. -/
def dq5At {σ : Type} (drv : BusDriver σ) (adr : Nat) (s : σ) (k : Nat) : Prop :=
  dq5test (trustedRead drv adr s k) = true

/-- The read that `amdstatus29` takes after leaving its loop in iteration `m`:
read number `2m` (counted from `0`) of the run of reads of `adr << o`. -/
def extraRead {σ : Type} (drv : BusDriver σ) (adr : Nat) (s : σ) (m : Nat) : Nat :=
  readVal drv (u32 (adr <<< o)) s (2 * m)

/-! ## Bus stubs -/

/-- A chain handle on which nothing has happened yet, with the bus in state `s`. -/
def fresh {σ : Type} (s : σ) : parts σ := { st := s, log := [], slept := 0 }

/-- A bus stub whose every read returns the word `c`. -/
def stuckBus (c : Nat) : BusDriver Unit :=
  { read := fun _ _ => (c, ()), write := fun _ _ _ => () }

/-- A bus stub whose DQ6 (in both half-words) flips on every read. -/
def toggleBus : BusDriver Bool :=
  { read := fun b _ => (if b then 0x00400040 else 0, !b), write := fun b _ _ => b }

/-- A bus stub that counts the reads since the last write: DQ6 of the low
half-word toggles during the first `2 * m` reads and is steady afterwards. -/
def settleBus (m : Nat) : BusDriver Nat :=
  { read := fun n _ => (if n % 2 = 1 ∧ n < 2 * m then 0x40 else 0, n + 1),
    write := fun _ _ _ => 0 }

/-! ## The front end (`src/jtag/src/readmem.c`)

`part.h`, `bus.h` and the definition of `detect_cfi` are not among the
sources; what `detectflash` and `readmem` take from them is collected in
`jtag_t` and is arbitrary.  A bus width is a number of bits, a natural number.
The many `printf` calls of `detectflash` are not modelled. -/

/-- The functions behind the global `bus_driver` that `readmem.c` calls. -/
structure bus_driver_t (σ : Type) extends BusDriver σ where
  /-- The call `bus_width( ps )`. -/
  bus_width : σ → Nat
  /-- The call `bus_read_start( ps, adr )`. -/
  read_start : σ → Nat → σ
  /-- The call `bus_read_next( ps, adr )`: the word read and the next state. -/
  read_next : σ → Nat → Nat × σ
  /-- The call `bus_read_end( ps )`: the word read and the next state. -/
  read_end : σ → Nat × σ

/-- What `readmem.c` takes from the rest of the program. -/
structure jtag_t (σ : Type) where
  /-- The global `bus_driver`; `none` is the null pointer. -/
  bus_driver : Option (bus_driver_t σ)
  /-- The calls `part_set_instruction( p, "EXTEST" ); parts_shift_instructions( ps )`. -/
  extest : σ → σ
  /-- The function `detect_cfi`; `none` is the null pointer. -/
  detect_cfi : parts σ → Option cfi_query_structure_t × parts σ

/-- The `switch (bus_width( ps ))` of `detectflash`: the shift `o`, or `none`
for the `default:` branch that prints an error and returns. -/
def detectflash_shift (width : Nat) : Option Nat :=
  if width = 16 then some 1 else if width = 32 then some 2 else none

/-- Model of `detectflash`. -/
def detectflash {σ : Type} (env : jtag_t σ) (ps : parts σ) : parts σ :=
  match env.bus_driver with
  | none => ps
  | some drv =>
    match detectflash_shift (drv.bus_width ps.st) with
    | none => ps
    | some o =>
      let ps0 : parts σ := { st := env.extest ps.st, log := ps.log, slept := ps.slept }
      let c := env.detect_cfi ps0
      match c.1 with
      | none => c.2
      | some _ =>
        let ps1 := bus_write drv.toBusDriver c.2 (0 <<< o) 0x00500050
        let ps2 := bus_write drv.toBusDriver ps1 (0 <<< 0) 0x00900090
        let r1 := bus_read drv.toBusDriver ps2 (0x00 <<< o)
        let r2 := bus_read drv.toBusDriver r1.2 (0x01 <<< o)
        bus_write drv.toBusDriver r2.2 (0 <<< o) 0x00FF00FF

/-- One streaming bus read issued by `readmem`, with the word it returned. -/
inductive StreamOp where
  | read_start (adr : Nat)
  | read_next (adr d : Nat)
  | read_end (d : Nat)
deriving DecidableEq, Repr

/-- What `readmem` acts on: the bus state behind `ps`, the streaming reads
issued so far, and the output file `f` as the list of the `fwrite` calls made
on it (the word `d` and the number of its bytes written). -/
structure Dump (σ : Type) where
  st : σ
  reads : List StreamOp
  file : List (Nat × Nat)

/-- The call `bus_read_start( ps, adr )`. -/
def bus_read_start {σ : Type} (drv : bus_driver_t σ) (w : Dump σ) (adr : Nat) : Dump σ :=
  { st := drv.read_start w.st adr, reads := w.reads ++ [StreamOp.read_start adr],
    file := w.file }

/-- The call `bus_read_next( ps, adr )`: returns a 32-bit word. -/
def bus_read_next {σ : Type} (drv : bus_driver_t σ) (w : Dump σ) (adr : Nat) :
    Nat × Dump σ :=
  let d := u32 (drv.read_next w.st adr).1
  (d, { st := (drv.read_next w.st adr).2, reads := w.reads ++ [StreamOp.read_next adr d],
        file := w.file })

/-- The call `bus_read_end( ps )`: returns a 32-bit word. -/
def bus_read_end {σ : Type} (drv : bus_driver_t σ) (w : Dump σ) : Nat × Dump σ :=
  let d := u32 (drv.read_end w.st).1
  (d, { st := (drv.read_end w.st).2, reads := w.reads ++ [StreamOp.read_end d],
        file := w.file })

/-- The call `fwrite( &d, step, 1, f )`. -/
def fwrite {σ : Type} (w : Dump σ) (d step : Nat) : Dump σ :=
  { st := w.st, reads := w.reads, file := w.file ++ [(d, step)] }

/-- The value of `~x` after conversion to `uint32_t`, for an `int` `x ≥ 0`. -/
def bnot32 (x : Nat) : Nat := 4294967295 - u32 x

/-- The assignment `addr = addr & (~(step - 1))` of `readmem`. -/
def readmem_addr (step addr : Nat) : Nat := addr &&& bnot32 (step - 1)

/-- The assignment `len = (len + step - 1) & (~(step - 1))` of `readmem`, the
sum taken in 32-bit arithmetic. -/
def readmem_len (step len : Nat) : Nat := u32 (len + step - 1) &&& bnot32 (step - 1)

/-- The loop `for (a = addr + step; a <= addr + len; a += step)` of `readmem`,
entered with the current value of `a`; `addr` and `len` are the aligned values
and all sums are taken in 32-bit arithmetic.  The loop need not terminate:
the first argument bounds the number of evaluations of the loop condition, and
`none` means that this bound was reached. -/
def readmem_loop {σ : Type} (drv : bus_driver_t σ) (step addr len : Nat) :
    Nat → Nat → Dump σ → Option (Dump σ)
  | 0, _, _ => none
  | fuel + 1, a, w =>
    if a ≤ u32 (addr + len) then
      let r := if a < u32 (addr + len) then bus_read_next drv w a else bus_read_end drv w
      readmem_loop drv step addr len fuel (u32 (a + step)) (fwrite r.2 r.1 step)
    else some w

/-- Model of `readmem`; `fuel` bounds the evaluations of the loop condition. -/
def readmem {σ : Type} (env : jtag_t σ) (fuel : Nat) (w : Dump σ) (addr len : Nat) :
    Option (Dump σ) :=
  match env.bus_driver with
  | none => some w
  | some drv =>
    let step := drv.bus_width w.st / 8
    if step = 0 then some w
    else
      let w0 : Dump σ := { st := env.extest w.st, reads := w.reads, file := w.file }
      if readmem_len step len = 0 then some w0
      else
        let w1 := bus_read_start drv w0 (readmem_addr step addr)
        readmem_loop drv step (readmem_addr step addr) (readmem_len step len) fuel
          (u32 (readmem_addr step addr + step)) w1

/-- A streaming bus stub of the given width: memory holds at every address the
address itself; the state is the address of the word that the next
`bus_read_next` or `bus_read_end` returns. -/
def stubDriver (width : Nat) : bus_driver_t Nat :=
  { read := fun s a => (a, s), write := fun s _ _ => s,
    bus_width := fun _ => width,
    read_start := fun _ a => a,
    read_next := fun s a => (s, a),
    read_end := fun s => (s, s) }

/-- The environment around `stubDriver`, in which no flash is detected. -/
def stubJtag (width : Nat) : jtag_t Nat :=
  { bus_driver := some (stubDriver width), extest := fun s => s,
    detect_cfi := fun ps => (none, ps) }

/-- A dump on which nothing has happened yet. -/
def freshDump {σ : Type} (s : σ) : Dump σ := { st := s, reads := [], file := [] }

/-- The environment around `stubDriver` in which a flash is detected. -/
def foundJtag (width : Nat) : jtag_t Nat :=
  { bus_driver := some (stubDriver width), extest := fun s => s,
    detect_cfi := fun ps =>
      (some { identification_string := { pri_id_code := 2, alt_id_code := 0 }, rest := [] },
       ps) }

/-- An environment without a bus driver. -/
def nullJtag : jtag_t Nat :=
  { bus_driver := none, extest := fun s => s, detect_cfi := fun ps => (none, ps) }

/-- The completion condition of data polling in the words of the spec, not
taken from the code: DQ7 of the read value `v`, under the mask `0x00800080`
(both half-words), equals bit 7 of the written data. -/
def dq7matches (v data : Nat) : Prop :=
  v &&& 0x00800080 = if data &&& 0x80 ≠ 0 then 0x00800080 else 0

instance {σ : Type} (drv : BusDriver σ) (adr : Nat) (s : σ) (k : Nat) :
    Decidable (stableAt drv adr s k) := by
  unfold stableAt; exact inferInstance


/-! ## Reads in succession -/

theorem readVal_succ {σ : Type} (drv : BusDriver σ) (adr : Nat) (s : σ) (i : Nat) :
    readVal drv adr s (i + 1) = readVal drv adr (drv.read s adr).2 i := by
  simp [readVal, afterReads]

theorem afterReads_add {σ : Type} (drv : BusDriver σ) (adr : Nat) (m n : Nat) (s : σ) :
    afterReads drv adr (m + n) s = afterReads drv adr n (afterReads drv adr m s) := by
  induction m generalizing s with
  | zero => simp [afterReads]
  | succ m ih =>
    have h : m + 1 + n = (m + n) + 1 := by omega
    rw [h]
    simp [afterReads, ih]

theorem readLog_length {σ : Type} (drv : BusDriver σ) (adr : Nat) (s : σ) (n : Nat) :
    (readLog drv adr s n).length = n := by
  simp [readLog]

theorem readLog_succ {σ : Type} (drv : BusDriver σ) (adr : Nat) (s : σ) (n : Nat) :
    readLog drv adr s (n + 1)
      = Access.read adr (readVal drv adr s 0) :: readLog drv adr (drv.read s adr).2 n := by
  simp only [readLog, List.range_succ_eq_map, List.map_cons, List.map_map]
  simp [Function.comp_def, readVal_succ]

theorem readLog_mem {σ : Type} (drv : BusDriver σ) (adr : Nat) (s : σ) (n : Nat)
    (e : Access) (h : e ∈ readLog drv adr s n) : ∃ v, e = Access.read adr v := by
  simp only [readLog, List.mem_map] at h
  obtain ⟨i, _, hi⟩ := h
  exact ⟨_, hi.symm⟩

theorem stableAt_succ_succ {σ : Type} (drv : BusDriver σ) (adr : Nat) (s : σ) (k : Nat) :
    stableAt drv adr s (k + 2)
      ↔ stableAt drv adr (drv.read (drv.read s adr).2 adr).2 (k + 1) := by
  have h1 : 2 * (k + 2 - 1) = 2 * k + 1 + 1 := by omega
  have h2 : 2 * (k + 1 - 1) = 2 * k := by omega
  simp only [stableAt, h1, h2, readVal_succ]

theorem stableAt_one {σ : Type} (drv : BusDriver σ) (adr : Nat) (s : σ) :
    stableAt drv adr s 1
      ↔ u32 (drv.read s adr).1 &&& togglemask
          = u32 (drv.read (drv.read s adr).2 adr).1 &&& togglemask := by
  simp [stableAt, readVal, afterReads]

/-! ## The toggle-bit loop -/

theorem amdstatus_loop_pass {σ : Type} (drv : BusDriver σ) (adr : Nat) (i : Nat) :
    ∀ (n : Nat) (ps : parts σ), i < n →
      (∀ j, j < i → ¬ stableAt drv adr ps.st (j + 1)) →
      stableAt drv adr ps.st (i + 1) →
      amdstatus_loop drv adr n ps
        = (1, { st := afterReads drv adr (2 * (i + 1)) ps.st,
                log := ps.log ++ readLog drv adr ps.st (2 * (i + 1)),
                slept := ps.slept + 100 * i }) := by
  induction i with
  | zero =>
    intro n ps hn _ hst
    obtain ⟨n, rfl⟩ : ∃ m, n = m + 1 := ⟨n - 1, by omega⟩
    rw [stableAt_one] at hst
    have e2 : 2 * (0 + 1) = 0 + 1 + 1 := rfl
    rw [amdstatus_loop]
    simp only [bus_read]
    rw [if_pos hst, e2]
    simp only [afterReads, readLog_succ]
    simp [afterReads, readLog, readVal]
  | succ i ih =>
    intro n ps hn hno hst
    obtain ⟨n, rfl⟩ : ∃ m, n = m + 1 := ⟨n - 1, by omega⟩
    have h0 := hno 0 (by omega)
    rw [stableAt_one] at h0
    have hno2 : ∀ j, j < i →
        ¬ stableAt drv adr (drv.read (drv.read ps.st adr).2 adr).2 (j + 1) := by
      intro j hj
      rw [← stableAt_succ_succ]
      exact hno (j + 1) (by omega)
    have hst2 : stableAt drv adr (drv.read (drv.read ps.st adr).2 adr).2 (i + 1) := by
      rw [← stableAt_succ_succ]; exact hst
    have hrec := ih n (usleep (bus_read drv (bus_read drv ps adr).2 adr).2 100) (by omega)
      (by simpa [usleep, bus_read] using hno2) (by simpa [usleep, bus_read] using hst2)
    have e2 : 2 * (i + 1 + 1) = 2 * (i + 1) + 1 + 1 := by omega
    rw [amdstatus_loop]
    simp only [bus_read] at hrec ⊢
    rw [if_neg h0, hrec]
    simp [usleep, e2, afterReads, readLog_succ, readVal]
    omega

theorem amdstatus_loop_fail {σ : Type} (drv : BusDriver σ) (adr : Nat) (n : Nat) :
    ∀ (ps : parts σ), (∀ j, j < n → ¬ stableAt drv adr ps.st (j + 1)) →
      amdstatus_loop drv adr n ps
        = (0, { st := afterReads drv adr (2 * n) ps.st,
                log := ps.log ++ readLog drv adr ps.st (2 * n),
                slept := ps.slept + 100 * n }) := by
  induction n with
  | zero =>
    intro ps _
    simp [amdstatus_loop, afterReads, readLog]
  | succ n ih =>
    intro ps hno
    have h0 := hno 0 (by omega)
    rw [stableAt_one] at h0
    have hno2 : ∀ j, j < n →
        ¬ stableAt drv adr (drv.read (drv.read ps.st adr).2 adr).2 (j + 1) := by
      intro j hj
      rw [← stableAt_succ_succ]
      exact hno (j + 1) (by omega)
    have hrec := ih (usleep (bus_read drv (bus_read drv ps adr).2 adr).2 100)
      (by simpa [usleep, bus_read] using hno2)
    have e2 : 2 * (n + 1) = 2 * n + 1 + 1 := by omega
    rw [amdstatus_loop]
    simp only [bus_read] at hrec ⊢
    rw [if_neg h0, hrec]
    simp [usleep, e2, afterReads, readLog_succ, readVal]
    omega


theorem amdstatus_pass_at {σ : Type} (drv : BusDriver σ) (ps : parts σ) (adr : Nat)
    (data : Int) (k : Nat) (h1 : 1 ≤ k) (h100 : k ≤ 100)
    (hst : stableAt drv adr ps.st k)
    (hno : ∀ j, 1 ≤ j → j < k → ¬ stableAt drv adr ps.st j) :
    amdstatus drv ps adr data
      = (1, { st := afterReads drv adr (2 * k) ps.st,
              log := ps.log ++ readLog drv adr ps.st (2 * k),
              slept := ps.slept + 100 * (k - 1) }) := by
  obtain ⟨i, rfl⟩ : ∃ i, k = i + 1 := ⟨k - 1, by omega⟩
  have h := amdstatus_loop_pass drv adr i 100 ps (by omega)
    (fun j hj => hno (j + 1) (by omega) (by omega)) hst
  simpa [amdstatus] using h

theorem amdstatus_fail_all {σ : Type} (drv : BusDriver σ) (ps : parts σ) (adr : Nat)
    (data : Int) (hno : ∀ k, 1 ≤ k → k ≤ 100 → ¬ stableAt drv adr ps.st k) :
    amdstatus drv ps adr data
      = (0, { st := afterReads drv adr 200 ps.st,
              log := ps.log ++ readLog drv adr ps.st 200,
              slept := ps.slept + 10000 }) := by
  have h := amdstatus_loop_fail drv adr 100 ps
    (fun j hj => hno (j + 1) (by omega) (by omega))
  simpa [amdstatus] using h

theorem exists_first (P : Nat → Prop) (n : Nat) (h : ∃ k, 1 ≤ k ∧ k ≤ n ∧ P k) :
    ∃ k, 1 ≤ k ∧ k ≤ n ∧ P k ∧ ∀ j, 1 ≤ j → j < k → ¬ P j := by
  classical
  have hex : ∃ k, 1 ≤ k ∧ P k := by
    obtain ⟨k, h1, _, h3⟩ := h
    exact ⟨k, h1, h3⟩
  obtain ⟨k, hk1, hk, hP⟩ := h
  refine ⟨Nat.find hex, (Nat.find_spec hex).1, ?_, (Nat.find_spec hex).2, ?_⟩
  · exact le_trans (Nat.find_min' hex ⟨hk1, hP⟩) hk
  · intro j hj hlt hs
    exact Nat.find_min hex hlt ⟨hj, hs⟩

theorem first_stable {σ : Type} (drv : BusDriver σ) (adr : Nat) (s : σ) (n : Nat)
    (h : ∃ k, 1 ≤ k ∧ k ≤ n ∧ stableAt drv adr s k) :
    ∃ k, 1 ≤ k ∧ k ≤ n ∧ stableAt drv adr s k
      ∧ ∀ j, 1 ≤ j → j < k → ¬ stableAt drv adr s j :=
  exists_first (stableAt drv adr s) n h

/-- C1: toggle-bit polling.  `amdstatus` passes (returns 1) iff some iteration
`k` with `1 ≤ k ≤ 100` shows a pair of reads that agree under the mask
`0x00400040` while every earlier iteration showed a differing pair; it then
returns after exactly `k` iterations, having issued exactly `2k` reads.  When it
does not pass it returns 0 after exactly 100 iterations (200 reads), none of
which showed a stable pair. -/
theorem amdstatus_toggle_poll {σ : Type} (drv : BusDriver σ) (ps : parts σ) (adr : Nat)
    (data : Int) :
    togglemask = 0x00400040
    ∧ ((amdstatus drv ps adr data).1 = 1 ↔
        ∃ k, 1 ≤ k ∧ k ≤ 100 ∧ stableAt drv adr ps.st k
          ∧ ∀ j, 1 ≤ j → j < k → ¬ stableAt drv adr ps.st j)
    ∧ (∀ k, 1 ≤ k → k ≤ 100 → stableAt drv adr ps.st k →
        (∀ j, 1 ≤ j → j < k → ¬ stableAt drv adr ps.st j) →
        (amdstatus drv ps adr data).1 = 1
        ∧ (amdstatus drv ps adr data).2.log = ps.log ++ readLog drv adr ps.st (2 * k)
        ∧ (readLog drv adr ps.st (2 * k)).length = 2 * k
        ∧ (amdstatus drv ps adr data).2.slept = ps.slept + 100 * (k - 1))
    ∧ ((amdstatus drv ps adr data).1 ≠ 1 →
        (amdstatus drv ps adr data).1 = 0
        ∧ (amdstatus drv ps adr data).2.log = ps.log ++ readLog drv adr ps.st 200
        ∧ (readLog drv adr ps.st 200).length = 200
        ∧ (amdstatus drv ps adr data).2.slept = ps.slept + 100 * 100
        ∧ ∀ k, 1 ≤ k → k ≤ 100 → ¬ stableAt drv adr ps.st k) := by
  have hpass : ∀ k, 1 ≤ k → k ≤ 100 → stableAt drv adr ps.st k →
      (∀ j, 1 ≤ j → j < k → ¬ stableAt drv adr ps.st j) →
      (amdstatus drv ps adr data).1 = 1 := by
    intro k h1 h2 h3 h4
    rw [amdstatus_pass_at drv ps adr data k h1 h2 h3 h4]
  have hnone : (amdstatus drv ps adr data).1 ≠ 1 →
      ∀ k, 1 ≤ k → k ≤ 100 → ¬ stableAt drv adr ps.st k := by
    intro hne k h1 h2 h3
    obtain ⟨k0, a1, a2, a3, a4⟩ := first_stable drv adr ps.st 100 ⟨k, h1, h2, h3⟩
    exact hne (hpass k0 a1 a2 a3 a4)
  refine ⟨by decide, ⟨?_, ?_⟩, ?_, ?_⟩
  · intro h
    by_contra hex
    have hno : ∀ k, 1 ≤ k → k ≤ 100 → ¬ stableAt drv adr ps.st k := by
      intro k h1 h2 h3
      obtain ⟨k0, a1, a2, a3, a4⟩ := first_stable drv adr ps.st 100 ⟨k, h1, h2, h3⟩
      exact hex ⟨k0, a1, a2, a3, a4⟩
    rw [amdstatus_fail_all drv ps adr data hno] at h
    simp at h
  · rintro ⟨k, h1, h2, h3, h4⟩
    exact hpass k h1 h2 h3 h4
  · intro k h1 h2 h3 h4
    rw [amdstatus_pass_at drv ps adr data k h1 h2 h3 h4]
    exact ⟨rfl, rfl, readLog_length _ _ _ _, rfl⟩
  · intro hne
    have hno := hnone hne
    rw [amdstatus_fail_all drv ps adr data hno]
    exact ⟨rfl, rfl, readLog_length _ _ _ _, rfl, hno⟩

/-! ## Command sequences and whole operations -/

theorem sequence_log {σ : Type} (drv : BusDriver σ) (steps : List (Nat × Nat)) :
    ∀ ps : parts σ, (sequence drv ps steps).log = ps.log ++ writeLog steps
      ∧ (sequence drv ps steps).slept = ps.slept := by
  induction steps with
  | nil => intro ps; simp [sequence, writeLog]
  | cons aw steps ih =>
    intro ps
    obtain ⟨a, d⟩ := aw
    have h := ih (bus_write drv ps a d)
    simp only [sequence]
    rw [h.1, h.2]
    simp [bus_write, writeLog]

theorem amdstatus_cases {σ : Type} (drv : BusDriver σ) (ps : parts σ) (adr : Nat)
    (data : Int) :
    (∃ k, 1 ≤ k ∧ k ≤ 100 ∧ stableAt drv adr ps.st k
        ∧ (∀ j, 1 ≤ j → j < k → ¬ stableAt drv adr ps.st j)
        ∧ amdstatus drv ps adr data
            = (1, { st := afterReads drv adr (2 * k) ps.st,
                    log := ps.log ++ readLog drv adr ps.st (2 * k),
                    slept := ps.slept + 100 * (k - 1) }))
    ∨ ((∀ k, 1 ≤ k → k ≤ 100 → ¬ stableAt drv adr ps.st k)
        ∧ amdstatus drv ps adr data
            = (0, { st := afterReads drv adr 200 ps.st,
                    log := ps.log ++ readLog drv adr ps.st 200,
                    slept := ps.slept + 10000 })) := by
  by_cases h : ∃ k, 1 ≤ k ∧ k ≤ 100 ∧ stableAt drv adr ps.st k
  · obtain ⟨k, h1, h2, h3, h4⟩ := first_stable drv adr ps.st 100 h
    exact Or.inl ⟨k, h1, h2, h3, h4, amdstatus_pass_at drv ps adr data k h1 h2 h3 h4⟩
  · have hno : ∀ k, 1 ≤ k → k ≤ 100 → ¬ stableAt drv adr ps.st k :=
      fun k h1 h2 h3 => h ⟨k, h1, h2, h3⟩
    exact Or.inr ⟨hno, amdstatus_fail_all drv ps adr data hno⟩

/-- The body of `amd_flash_erase_block` as command sequence, poll and reset. -/
theorem erase_block_unfold {σ : Type} (err : Int) (drv : BusDriver σ) (ps : parts σ)
    (adr : Nat) :
    amd_flash_erase_block err drv ps adr
      = (if (amdstatus drv (sequence drv ps (eraseSteps adr)) adr 0xffff).1 ≠ 0 then 0 else err,
         amd_flash_read_array drv
           (amdstatus drv (sequence drv ps (eraseSteps adr)) adr 0xffff).2) := by
  have ho : o = 2 := rfl
  simp only [amd_flash_erase_block, sequence, eraseSteps, ho]
  split
  · rfl
  · rfl

theorem erase_block_pass_at {σ : Type} (err : Int) (drv : BusDriver σ) (ps : parts σ)
    (adr k : Nat) (h1 : 1 ≤ k) (h100 : k ≤ 100)
    (hst : stableAt drv adr (sequence drv ps (eraseSteps adr)).st k)
    (hno : ∀ j, 1 ≤ j → j < k → ¬ stableAt drv adr (sequence drv ps (eraseSteps adr)).st j) :
    (amd_flash_erase_block err drv ps adr).1 = 0
    ∧ (amd_flash_erase_block err drv ps adr).2.log
        = ps.log ++ writeLog (eraseSteps adr)
            ++ readLog drv adr (sequence drv ps (eraseSteps adr)).st (2 * k)
            ++ [Access.write 0 0x00F000F0] := by
  rw [erase_block_unfold, amdstatus_pass_at drv _ adr 0xffff k h1 h100 hst hno]
  simp [amd_flash_read_array, bus_write, (sequence_log drv (eraseSteps adr) ps).1]

theorem erase_block_fail_all {σ : Type} (err : Int) (drv : BusDriver σ) (ps : parts σ)
    (adr : Nat)
    (hno : ∀ k, 1 ≤ k → k ≤ 100 →
      ¬ stableAt drv adr (sequence drv ps (eraseSteps adr)).st k) :
    (amd_flash_erase_block err drv ps adr).1 = err
    ∧ (amd_flash_erase_block err drv ps adr).2.log
        = ps.log ++ writeLog (eraseSteps adr)
            ++ readLog drv adr (sequence drv ps (eraseSteps adr)).st 200
            ++ [Access.write 0 0x00F000F0] := by
  rw [erase_block_unfold, amdstatus_fail_all drv _ adr 0xffff hno]
  simp [amd_flash_read_array, bus_write, (sequence_log drv (eraseSteps adr) ps).1]

theorem afterReads_succ_last {σ : Type} (drv : BusDriver σ) (adr : Nat) (n : Nat) (s : σ) :
    afterReads drv adr (n + 1) s = (drv.read (afterReads drv adr n s) adr).2 := by
  rw [afterReads_add]
  simp [afterReads]

theorem not_stableAt_of_toggling {σ : Type} (drv : BusDriver σ)
    (h : ∀ s a, u32 (drv.read s a).1 &&& togglemask
      ≠ u32 (drv.read (drv.read s a).2 a).1 &&& togglemask)
    (adr : Nat) (s : σ) (k : Nat) : ¬ stableAt drv adr s k := by
  simp only [stableAt, readVal, afterReads_succ_last]
  exact h _ _

theorem stableAt_one_of_stuck {σ : Type} (drv : BusDriver σ) (c : Nat)
    (h : ∀ s a, (drv.read s a).1 = c) (adr : Nat) (s : σ) : stableAt drv adr s 1 := by
  rw [stableAt_one, h, h]

theorem readLog_two_of_stuck {σ : Type} (drv : BusDriver σ) (c : Nat)
    (h : ∀ s a, (drv.read s a).1 = c) (adr : Nat) (s : σ) :
    readLog drv adr s 2 = [Access.read adr (u32 c), Access.read adr (u32 c)] := by
  have e : (2 : Nat) = 0 + 1 + 1 := rfl
  rw [e]
  simp only [readLog_succ]
  simp [readLog, readVal, afterReads, h]

/-- C2 (as stated, refuted): on the bus stub whose reads always return `0`,
`amd_flash_erase_block` at `0x1000` does not report failure; it returns `0`
after a single polling iteration (two reads). -/
theorem erase_block_stuck_bus_succeeds :
    amd_flash_erase_block 1 (stuckBus 0) (fresh ()) 0x1000
      = (0, { st := (),
              log := [Access.write 0x1554 0x00AA00AA, Access.write 0x0AA8 0x00550055,
                      Access.write 0x1554 0x00800080, Access.write 0x1554 0x00AA00AA,
                      Access.write 0x0AA8 0x00550055, Access.write 0x1000 0x00300030,
                      Access.read 0x1000 0, Access.read 0x1000 0,
                      Access.write 0 0x00F000F0],
              slept := 0 }) := by
  rfl

/-- C2 (amended): on every bus whose reads always return the same word,
`amd_flash_erase_block` at `0x1000` reports success after exactly one polling
iteration (two reads); on every bus whose successive reads always differ in
DQ6 it reports `CFI_INTEL_ERROR_UNKNOWN` after the full cap of 100 iterations
(200 reads).  In both cases the reset write `0x00F000F0` to address 0 is the
final access. -/
theorem erase_block_stuck_or_toggling {σ : Type} (CFI_INTEL_ERROR_UNKNOWN : Int)
    (drv : BusDriver σ) (ps : parts σ) :
    (∀ c, (∀ s a, (drv.read s a).1 = c) →
      (amd_flash_erase_block CFI_INTEL_ERROR_UNKNOWN drv ps 0x1000).1 = 0
      ∧ (amd_flash_erase_block CFI_INTEL_ERROR_UNKNOWN drv ps 0x1000).2.log
          = ps.log ++ writeLog (eraseSteps 0x1000)
              ++ [Access.read 0x1000 (u32 c), Access.read 0x1000 (u32 c)]
              ++ [Access.write 0 0x00F000F0])
    ∧ ((∀ s a, u32 (drv.read s a).1 &&& togglemask
          ≠ u32 (drv.read (drv.read s a).2 a).1 &&& togglemask) →
      (amd_flash_erase_block CFI_INTEL_ERROR_UNKNOWN drv ps 0x1000).1
          = CFI_INTEL_ERROR_UNKNOWN
      ∧ (amd_flash_erase_block CFI_INTEL_ERROR_UNKNOWN drv ps 0x1000).2.log
          = ps.log ++ writeLog (eraseSteps 0x1000)
              ++ readLog drv 0x1000 (sequence drv ps (eraseSteps 0x1000)).st 200
              ++ [Access.write 0 0x00F000F0]
      ∧ (readLog drv 0x1000 (sequence drv ps (eraseSteps 0x1000)).st 200).length
          = 2 * 100) := by
  constructor
  · intro c h
    have hp := erase_block_pass_at CFI_INTEL_ERROR_UNKNOWN drv ps 0x1000 1 (le_refl 1)
      (by omega) (stableAt_one_of_stuck drv c h _ _) (fun j h1 h2 => by omega)
    rw [hp.1, hp.2]
    simp [readLog_two_of_stuck drv c h]
  · intro h
    have hf := erase_block_fail_all CFI_INTEL_ERROR_UNKNOWN drv ps 0x1000
      (fun k _ _ => not_stableAt_of_toggling drv h _ _ k)
    exact ⟨hf.1, hf.2, readLog_length _ _ _ _⟩

theorem erase_block_stuck_or_toggling_witness :
    ((amd_flash_erase_block 1 (stuckBus 7) (fresh ()) 0x1000).1 = 0
      ∧ (amd_flash_erase_block 1 (stuckBus 7) (fresh ()) 0x1000).2.log
          = (fresh ()).log ++ writeLog (eraseSteps 0x1000)
              ++ [Access.read 0x1000 (u32 7), Access.read 0x1000 (u32 7)]
              ++ [Access.write 0 0x00F000F0])
    ∧ ((amd_flash_erase_block 1 toggleBus (fresh false) 0x1000).1 = 1
      ∧ (amd_flash_erase_block 1 toggleBus (fresh false) 0x1000).2.log
          = (fresh false).log ++ writeLog (eraseSteps 0x1000)
              ++ readLog toggleBus 0x1000
                  (sequence toggleBus (fresh false) (eraseSteps 0x1000)).st 200
              ++ [Access.write 0 0x00F000F0]
      ∧ (readLog toggleBus 0x1000
          (sequence toggleBus (fresh false) (eraseSteps 0x1000)).st 200).length
          = 2 * 100) :=
  ⟨(erase_block_stuck_or_toggling 1 (stuckBus 7) (fresh ())).1 7 (fun _ _ => rfl),
   (erase_block_stuck_or_toggling 1 toggleBus (fresh false)).2
     (fun s _ => by cases s <;> simp [toggleBus, u32, togglemask])⟩

/-- C3: read-array on every exit path.  Whatever the bus returns and whatever
the poll decides, `amd_flash_erase_block` ends with the reset write
`0x00F000F0` to address 0, and so do `amd_flash_print_info` and
`amdisprotected`: the reset is the last entry of the access log. -/
theorem reset_write_is_last_access {σ : Type} (CFI_INTEL_ERROR_UNKNOWN : Int)
    (drv : BusDriver σ) (ps : parts σ) (adr : Nat) :
    (∃ k, 1 ≤ k ∧ k ≤ 100
      ∧ (amd_flash_erase_block CFI_INTEL_ERROR_UNKNOWN drv ps adr).2.log
          = ps.log ++ (writeLog (eraseSteps adr)
              ++ readLog drv adr (sequence drv ps (eraseSteps adr)).st (2 * k))
              ++ [Access.write 0 0x00F000F0])
    ∧ (∃ v0 v1 v2, (amd_flash_print_info drv ps).2.log
          = ps.log ++ (writeLog autoselectSteps
              ++ [Access.read 0 v0, Access.read 4 v1, Access.read 8 v2])
              ++ [Access.write 0 0x00F000F0])
    ∧ (∃ v, (amdisprotected drv ps adr).2.log
          = ps.log ++ (writeLog autoselectSteps
              ++ [Access.read (u32 (adr + 8)) v])
              ++ [Access.write 0 0x00F000F0]) := by
  refine ⟨?_, ?_, ?_⟩
  · rcases amdstatus_cases drv (sequence drv ps (eraseSteps adr)) adr 0xffff with
      ⟨k, h1, h2, h3, h4, _⟩ | ⟨hno, _⟩
    · refine ⟨k, h1, h2, ?_⟩
      rw [(erase_block_pass_at CFI_INTEL_ERROR_UNKNOWN drv ps adr k h1 h2 h3 h4).2]
      simp
    · refine ⟨100, by omega, by omega, ?_⟩
      rw [(erase_block_fail_all CFI_INTEL_ERROR_UNKNOWN drv ps adr hno).2]
      simp
  · refine ⟨(bus_read drv (sequence drv ps autoselectSteps) 0).1,
      (bus_read drv (bus_read drv (sequence drv ps autoselectSteps) 0).2 4).1,
      (bus_read drv (bus_read drv (bus_read drv (sequence drv ps autoselectSteps) 0).2 4).2
        8).1, ?_⟩
    simp [amd_flash_print_info, amd_flash_read_array, bus_write, bus_read, writeLog,
      autoselectSteps, sequence, o]
  · refine ⟨(bus_read drv (sequence drv ps autoselectSteps) (u32 (adr + 8))).1, ?_⟩
    simp [amdisprotected, amd_flash_read_array, bus_write, bus_read, writeLog,
      autoselectSteps, sequence, o]

theorem program_unfold {σ : Type} (drv : BusDriver σ) (ps : parts σ) (adr data : Nat) :
    amd_flash_program drv ps adr data
      = (if (amdstatus drv (sequence drv ps (programSteps adr data)) adr data).1 = 0
          then 1 else 0,
         (amdstatus drv (sequence drv ps (programSteps adr data)) adr data).2) := by
  have ho : o = 2 := rfl
  simp only [amd_flash_program, sequence, programSteps, ho]

/-- C4: status equals poll outcome.  `amd_flash_program` returns 0 exactly when
the toggle-bit poll that follows its four writes passes, and 1 otherwise;
`amd_flash_erase_block` returns 0 exactly when the poll that follows its six
writes passes, and `CFI_INTEL_ERROR_UNKNOWN` otherwise.  The constant comes
from a header outside the sources; it is assumed to be non-zero. -/
theorem status_equals_poll_outcome {σ : Type} (CFI_INTEL_ERROR_UNKNOWN : Int)
    (hne : CFI_INTEL_ERROR_UNKNOWN ≠ 0)
    (drv : BusDriver σ) (ps : parts σ) (adr data : Nat) :
    ((amd_flash_program drv ps adr data).1 = 0
        ↔ (amdstatus drv (sequence drv ps (programSteps adr data)) adr data).1 = 1)
    ∧ ((amd_flash_program drv ps adr data).1 ≠ 0
        ↔ (amdstatus drv (sequence drv ps (programSteps adr data)) adr data).1 ≠ 1)
    ∧ ((amd_flash_program drv ps adr data).1 = 0
        ∨ (amd_flash_program drv ps adr data).1 = 1)
    ∧ ((amd_flash_erase_block CFI_INTEL_ERROR_UNKNOWN drv ps adr).1 = 0
        ↔ (amdstatus drv (sequence drv ps (eraseSteps adr)) adr 0xffff).1 = 1)
    ∧ ((amd_flash_erase_block CFI_INTEL_ERROR_UNKNOWN drv ps adr).1
          = CFI_INTEL_ERROR_UNKNOWN
        ↔ (amdstatus drv (sequence drv ps (eraseSteps adr)) adr 0xffff).1 ≠ 1)
    ∧ ((amd_flash_erase_block CFI_INTEL_ERROR_UNKNOWN drv ps adr).1 = 0
        ∨ (amd_flash_erase_block CFI_INTEL_ERROR_UNKNOWN drv ps adr).1
            = CFI_INTEL_ERROR_UNKNOWN) := by
  have hp : (amdstatus drv (sequence drv ps (programSteps adr data)) adr data).1 = 1
      ∨ (amdstatus drv (sequence drv ps (programSteps adr data)) adr data).1 = 0 := by
    rcases amdstatus_cases drv (sequence drv ps (programSteps adr data)) adr data with
      ⟨k, _, _, _, _, h⟩ | ⟨_, h⟩
    · left; rw [h]
    · right; rw [h]
  have he : (amdstatus drv (sequence drv ps (eraseSteps adr)) adr 0xffff).1 = 1
      ∨ (amdstatus drv (sequence drv ps (eraseSteps adr)) adr 0xffff).1 = 0 := by
    rcases amdstatus_cases drv (sequence drv ps (eraseSteps adr)) adr 0xffff with
      ⟨k, _, _, _, _, h⟩ | ⟨_, h⟩
    · left; rw [h]
    · right; rw [h]
  have hne' : (0 : Int) ≠ CFI_INTEL_ERROR_UNKNOWN := fun h => hne h.symm
  rw [program_unfold, erase_block_unfold]
  rcases hp with hp | hp <;> rcases he with he | he <;> simp [hp, he, hne, hne']

theorem status_equals_poll_outcome_witness :
    ((amd_flash_program (stuckBus 0) (fresh ()) 0x1000 0x1234).1 = 0
        ↔ (amdstatus (stuckBus 0)
            (sequence (stuckBus 0) (fresh ()) (programSteps 0x1000 0x1234)) 0x1000
            (0x1234 : Nat)).1 = 1)
    ∧ ((amd_flash_program (stuckBus 0) (fresh ()) 0x1000 0x1234).1 ≠ 0
        ↔ (amdstatus (stuckBus 0)
            (sequence (stuckBus 0) (fresh ()) (programSteps 0x1000 0x1234)) 0x1000
            (0x1234 : Nat)).1 ≠ 1)
    ∧ ((amd_flash_program (stuckBus 0) (fresh ()) 0x1000 0x1234).1 = 0
        ∨ (amd_flash_program (stuckBus 0) (fresh ()) 0x1000 0x1234).1 = 1)
    ∧ ((amd_flash_erase_block 1 (stuckBus 0) (fresh ()) 0x1000).1 = 0
        ↔ (amdstatus (stuckBus 0)
            (sequence (stuckBus 0) (fresh ()) (eraseSteps 0x1000)) 0x1000 0xffff).1 = 1)
    ∧ ((amd_flash_erase_block 1 (stuckBus 0) (fresh ()) 0x1000).1 = 1
        ↔ (amdstatus (stuckBus 0)
            (sequence (stuckBus 0) (fresh ()) (eraseSteps 0x1000)) 0x1000 0xffff).1 ≠ 1)
    ∧ ((amd_flash_erase_block 1 (stuckBus 0) (fresh ()) 0x1000).1 = 0
        ∨ (amd_flash_erase_block 1 (stuckBus 0) (fresh ()) 0x1000).1 = 1) :=
  status_equals_poll_outcome 1 (by decide) (stuckBus 0) (fresh ()) 0x1000 0x1234

/-- C5: program scenario.  When the first stable read pair after the four
writes of `amd_flash_program` occurs on polling iteration `k` (`1 ≤ k ≤ 100`),
the function returns 0, the poll takes exactly `k` iterations (`2k` reads, all
of address `A`), and the accesses issued are exactly the four writes followed
by those reads: nothing is written after the data write. -/
theorem program_first_stable_at {σ : Type} (drv : BusDriver σ) (ps : parts σ)
    (A D k : Nat) (h1 : 1 ≤ k) (h100 : k ≤ 100)
    (hst : stableAt drv A (sequence drv ps (programSteps A D)).st k)
    (hno : ∀ j, 1 ≤ j → j < k → ¬ stableAt drv A (sequence drv ps (programSteps A D)).st j) :
    (amd_flash_program drv ps A D).1 = 0
    ∧ (amd_flash_program drv ps A D).2.log
        = ps.log
            ++ [Access.write (0x0555 <<< 2) 0x00AA00AA, Access.write (0x02AA <<< 2) 0x00550055,
                Access.write (0x0555 <<< 2) 0x00A000A0, Access.write A D]
            ++ readLog drv A (sequence drv ps (programSteps A D)).st (2 * k)
    ∧ (readLog drv A (sequence drv ps (programSteps A D)).st (2 * k)).length = 2 * k
    ∧ (∀ e ∈ readLog drv A (sequence drv ps (programSteps A D)).st (2 * k),
        ∃ v, e = Access.read A v)
    ∧ (amd_flash_program drv ps A D).2.slept = ps.slept + 100 * (k - 1) := by
  rw [program_unfold, amdstatus_pass_at drv _ A D k h1 h100 hst hno]
  refine ⟨by simp, ?_, readLog_length _ _ _ _, readLog_mem _ _ _ _, ?_⟩
  · have hl := (sequence_log drv (programSteps A D) ps).1
    dsimp only
    rw [hl]
    simp [writeLog, programSteps]
  · have hs := (sequence_log drv (programSteps A D) ps).2
    dsimp only
    rw [hs]

theorem program_first_stable_at_witness :
    (amd_flash_program (settleBus 2) (fresh 0) 0x1000 0x1234).1 = 0
    ∧ (amd_flash_program (settleBus 2) (fresh 0) 0x1000 0x1234).2.log
        = (fresh 0).log
            ++ [Access.write (0x0555 <<< 2) 0x00AA00AA, Access.write (0x02AA <<< 2) 0x00550055,
                Access.write (0x0555 <<< 2) 0x00A000A0, Access.write 0x1000 0x1234]
            ++ readLog (settleBus 2) 0x1000
                (sequence (settleBus 2) (fresh 0) (programSteps 0x1000 0x1234)).st (2 * 3)
    ∧ (readLog (settleBus 2) 0x1000
        (sequence (settleBus 2) (fresh 0) (programSteps 0x1000 0x1234)).st (2 * 3)).length
        = 2 * 3
    ∧ (∀ e ∈ readLog (settleBus 2) 0x1000
          (sequence (settleBus 2) (fresh 0) (programSteps 0x1000 0x1234)).st (2 * 3),
        ∃ v, e = Access.read 0x1000 v)
    ∧ (amd_flash_program (settleBus 2) (fresh 0) 0x1000 0x1234).2.slept
        = (fresh 0).slept + 100 * (3 - 1) :=
  program_first_stable_at (settleBus 2) (fresh 0) 0x1000 0x1234 3 (by decide) (by decide)
    (by decide) (fun j h1 h2 => by interval_cases j <;> decide)

/-- C8: erase command sequence.  The accesses of `amd_flash_erase_block` are
exactly the six command writes, then the reads of the toggle-bit poll (`2k` of
them for some `1 ≤ k ≤ 100`, every one a read of `adr`), then the reset write;
in particular no read precedes the sixth write and nothing follows the reset. -/
theorem erase_block_access_trace {σ : Type} (CFI_INTEL_ERROR_UNKNOWN : Int)
    (drv : BusDriver σ) (ps : parts σ) (adr : Nat) :
    ∃ k, 1 ≤ k ∧ k ≤ 100
      ∧ (amd_flash_erase_block CFI_INTEL_ERROR_UNKNOWN drv ps adr).2.log
          = ps.log
            ++ [Access.write (0x0555 <<< 2) 0x00AA00AA, Access.write (0x02AA <<< 2) 0x00550055,
                Access.write (0x0555 <<< 2) 0x00800080, Access.write (0x0555 <<< 2) 0x00AA00AA,
                Access.write (0x02AA <<< 2) 0x00550055, Access.write adr 0x00300030]
            ++ readLog drv adr (sequence drv ps (eraseSteps adr)).st (2 * k)
            ++ [Access.write 0 0x00F000F0]
      ∧ (readLog drv adr (sequence drv ps (eraseSteps adr)).st (2 * k)).length = 2 * k
      ∧ ∀ e ∈ readLog drv adr (sequence drv ps (eraseSteps adr)).st (2 * k),
          ∃ v, e = Access.read adr v := by
  rcases amdstatus_cases drv (sequence drv ps (eraseSteps adr)) adr 0xffff with
    ⟨k, h1, h2, h3, h4, _⟩ | ⟨hno, _⟩
  · refine ⟨k, h1, h2, ?_, readLog_length _ _ _ _, readLog_mem _ _ _ _⟩
    rw [(erase_block_pass_at CFI_INTEL_ERROR_UNKNOWN drv ps adr k h1 h2 h3 h4).2]
    simp [writeLog, eraseSteps]
  · refine ⟨100, by omega, by omega, ?_, readLog_length _ _ _ _, readLog_mem _ _ _ _⟩
    rw [(erase_block_fail_all CFI_INTEL_ERROR_UNKNOWN drv ps adr hno).2]
    simp [writeLog, eraseSteps]

/-! ## The data-polling loop -/

theorem trustedRead_one {σ : Type} (drv : BusDriver σ) (adr : Nat) (s : σ) :
    trustedRead drv adr s 1
      = u32 (drv.read (drv.read s (u32 (adr <<< o))).2 (u32 (adr <<< o))).1 := by
  simp [trustedRead, readVal, afterReads]

theorem trustedRead_succ_succ {σ : Type} (drv : BusDriver σ) (adr : Nat) (s : σ) (k : Nat) :
    trustedRead drv adr s (k + 2)
      = trustedRead drv adr
          (drv.read (drv.read s (u32 (adr <<< o))).2 (u32 (adr <<< o))).2 (k + 1) := by
  have h1 : 2 * (k + 2 - 1) + 1 = 2 * k + 1 + 1 + 1 := by omega
  have h2 : 2 * (k + 1 - 1) + 1 = 2 * k + 1 := by omega
  simp only [trustedRead, h1, h2, readVal_succ]

theorem extraRead_succ {σ : Type} (drv : BusDriver σ) (adr : Nat) (s : σ) (m : Nat) :
    extraRead drv adr s (m + 1)
      = extraRead drv adr
          (drv.read (drv.read s (u32 (adr <<< o))).2 (u32 (adr <<< o))).2 m := by
  have h1 : 2 * (m + 1) = 2 * m + 1 + 1 := by omega
  simp only [extraRead, h1, readVal_succ]

theorem amdstatus29_final_eq {σ : Type} (drv : BusDriver σ) (ps : parts σ) (adr data : Nat) :
    amdstatus29_final drv ps adr data
      = (if dq7test (extraRead drv adr ps.st 0) data then 1 else 0,
         { st := afterReads drv (u32 (adr <<< o)) 1 ps.st,
           log := ps.log ++ readLog drv (u32 (adr <<< o)) ps.st 1,
           slept := ps.slept }) := by
  have e : (1 : Nat) = 0 + 1 := rfl
  rw [e, readLog_succ]
  simp only [amdstatus29_final, bus_read, extraRead, readVal, afterReads, readLog]
  split <;> simp

/-- One iteration of the loop of `amdstatus29` that neither passes nor sees DQ5. -/
theorem amdstatus29_loop_step {σ : Type} (drv : BusDriver σ) (adr data : Nat) (n : Nat)
    (ps : parts σ) (hm : ¬ matchAt drv adr data ps.st 1) (h5 : ¬ dq5At drv adr ps.st 1) :
    amdstatus29_loop drv adr data (n + 1) ps
      = amdstatus29_loop drv adr data n
          { st := (drv.read (drv.read ps.st (u32 (adr <<< o))).2 (u32 (adr <<< o))).2,
            log := ps.log ++ readLog drv (u32 (adr <<< o)) ps.st 2,
            slept := ps.slept + 100 } := by
  have e : (2 : Nat) = 0 + 1 + 1 := rfl
  simp only [matchAt, dq5At, trustedRead_one] at hm h5
  rw [amdstatus29_loop, e]
  simp only [readLog_succ]
  simp only [bus_read]
  rw [if_neg hm, if_neg h5]
  simp [usleep, readLog, readVal, afterReads]

theorem amdstatus29_loop_pass {σ : Type} (drv : BusDriver σ) (adr data : Nat) (i : Nat) :
    ∀ (n : Nat) (ps : parts σ), i < n →
      (∀ j, j < i → ¬ matchAt drv adr data ps.st (j + 1) ∧ ¬ dq5At drv adr ps.st (j + 1)) →
      matchAt drv adr data ps.st (i + 1) →
      amdstatus29_loop drv adr data n ps
        = (1, { st := afterReads drv (u32 (adr <<< o)) (2 * (i + 1)) ps.st,
                log := ps.log ++ readLog drv (u32 (adr <<< o)) ps.st (2 * (i + 1)),
                slept := ps.slept + 100 * i }) := by
  induction i with
  | zero =>
    intro n ps hn _ hm
    obtain ⟨n, rfl⟩ : ∃ m, n = m + 1 := ⟨n - 1, by omega⟩
    replace hm : matchAt drv adr data ps.st 1 := hm
    simp only [matchAt, trustedRead_one] at hm
    have e2 : 2 * (0 + 1) = 0 + 1 + 1 := rfl
    rw [amdstatus29_loop]
    simp only [bus_read]
    rw [if_pos hm, e2]
    simp only [afterReads, readLog_succ]
    simp [afterReads, readLog, readVal]
  | succ i ih =>
    intro n ps hn hno hm
    obtain ⟨n, rfl⟩ : ∃ m, n = m + 1 := ⟨n - 1, by omega⟩
    have h0 := hno 0 (by omega)
    rw [amdstatus29_loop_step drv adr data n ps h0.1 h0.2]
    rw [ih n _ (by omega) ?_ ?_]
    · have e2 : 2 * (i + 1 + 1) = 2 * (i + 1) + 1 + 1 := by omega
      have e : (2 : Nat) = 0 + 1 + 1 := rfl
      rw [e2, e]
      simp only [afterReads, readLog_succ]
      simp [readLog]
      omega
    · intro j hj
      have := hno (j + 1) (by omega)
      simpa [matchAt, dq5At, trustedRead_succ_succ] using this
    · simpa [matchAt, trustedRead_succ_succ] using hm

theorem amdstatus29_loop_break {σ : Type} (drv : BusDriver σ) (adr data : Nat) (i : Nat) :
    ∀ (n : Nat) (ps : parts σ), i < n →
      (∀ j, j < i → ¬ matchAt drv adr data ps.st (j + 1) ∧ ¬ dq5At drv adr ps.st (j + 1)) →
      ¬ matchAt drv adr data ps.st (i + 1) → dq5At drv adr ps.st (i + 1) →
      amdstatus29_loop drv adr data n ps
        = (if dq7test (extraRead drv adr ps.st (i + 1)) data then 1 else 0,
           { st := afterReads drv (u32 (adr <<< o)) (2 * (i + 1) + 1) ps.st,
             log := ps.log ++ readLog drv (u32 (adr <<< o)) ps.st (2 * (i + 1) + 1),
             slept := ps.slept + 100 * i }) := by
  induction i with
  | zero =>
    intro n ps hn _ hm h5
    obtain ⟨n, rfl⟩ : ∃ m, n = m + 1 := ⟨n - 1, by omega⟩
    replace hm : ¬ matchAt drv adr data ps.st 1 := hm
    replace h5 : dq5At drv adr ps.st 1 := h5
    simp only [matchAt, dq5At, trustedRead_one] at hm h5
    have e2 : 2 * (0 + 1) + 1 = 0 + 1 + 1 + 1 := rfl
    rw [amdstatus29_loop]
    simp only [bus_read]
    rw [if_neg hm, if_pos h5, amdstatus29_final_eq, e2, extraRead_succ]
    simp only [afterReads, readLog_succ]
    simp [readLog, readVal, afterReads]
  | succ i ih =>
    intro n ps hn hno hm h5
    obtain ⟨n, rfl⟩ : ∃ m, n = m + 1 := ⟨n - 1, by omega⟩
    have h0 := hno 0 (by omega)
    rw [amdstatus29_loop_step drv adr data n ps h0.1 h0.2]
    rw [ih n _ (by omega) ?_ ?_ ?_]
    · have e2 : 2 * (i + 1 + 1) + 1 = 2 * (i + 1) + 1 + 1 + 1 := by omega
      have e : (2 : Nat) = 0 + 1 + 1 := rfl
      rw [e2, e, extraRead_succ drv adr ps.st (i + 1)]
      simp only [afterReads, readLog_succ]
      simp [readLog]
      omega
    · intro j hj
      have := hno (j + 1) (by omega)
      simpa [matchAt, dq5At, trustedRead_succ_succ] using this
    · simpa [matchAt, trustedRead_succ_succ] using hm
    · simpa [dq5At, trustedRead_succ_succ] using h5

theorem amdstatus29_loop_exhaust {σ : Type} (drv : BusDriver σ) (adr data : Nat) (n : Nat) :
    ∀ (ps : parts σ),
      (∀ j, j < n → ¬ matchAt drv adr data ps.st (j + 1) ∧ ¬ dq5At drv adr ps.st (j + 1)) →
      amdstatus29_loop drv adr data n ps
        = (if dq7test (extraRead drv adr ps.st n) data then 1 else 0,
           { st := afterReads drv (u32 (adr <<< o)) (2 * n + 1) ps.st,
             log := ps.log ++ readLog drv (u32 (adr <<< o)) ps.st (2 * n + 1),
             slept := ps.slept + 100 * n }) := by
  induction n with
  | zero =>
    intro ps _
    rw [amdstatus29_loop, amdstatus29_final_eq]
    simp
  | succ n ih =>
    intro ps hno
    have h0 := hno 0 (by omega)
    rw [amdstatus29_loop_step drv adr data n ps h0.1 h0.2]
    rw [ih _ ?_]
    · have e2 : 2 * (n + 1) + 1 = 2 * n + 1 + 1 + 1 := by omega
      have e : (2 : Nat) = 0 + 1 + 1 := rfl
      rw [e2, e, extraRead_succ drv adr ps.st n]
      simp only [afterReads, readLog_succ]
      simp [readLog]
      omega
    · intro j hj
      have := hno (j + 1) (by omega)
      simpa [matchAt, dq5At, trustedRead_succ_succ] using this

theorem readLog_succ_last {σ : Type} (drv : BusDriver σ) (adr : Nat) (s : σ) (n : Nat) :
    readLog drv adr s (n + 1)
      = readLog drv adr s n ++ [Access.read adr (readVal drv adr s n)] := by
  simp [readLog, List.range_succ]

theorem amdstatus29_pass_at {σ : Type} (drv : BusDriver σ) (ps : parts σ) (adr data : Nat)
    (k : Nat) (h1 : 1 ≤ k) (h100 : k ≤ 100) (hm : matchAt drv adr data ps.st k)
    (hno : ∀ j, 1 ≤ j → j < k →
      ¬ matchAt drv adr data ps.st j ∧ ¬ dq5At drv adr ps.st j) :
    amdstatus29 drv ps adr data
      = (1, { st := afterReads drv (u32 (adr <<< o)) (2 * k) ps.st,
              log := ps.log ++ readLog drv (u32 (adr <<< o)) ps.st (2 * k),
              slept := ps.slept + 100 * (k - 1) }) := by
  obtain ⟨i, rfl⟩ : ∃ i, k = i + 1 := ⟨k - 1, by omega⟩
  have h := amdstatus29_loop_pass drv adr data i 100 ps (by omega)
    (fun j hj => hno (j + 1) (by omega) (by omega)) hm
  simpa [amdstatus29] using h

theorem amdstatus29_left_at {σ : Type} (drv : BusDriver σ) (ps : parts σ) (adr data : Nat)
    (m : Nat) (h1 : 1 ≤ m) (h100 : m ≤ 100)
    (hnm : ∀ j, 1 ≤ j → j ≤ m → ¬ matchAt drv adr data ps.st j)
    (hn5 : ∀ j, 1 ≤ j → j < m → ¬ dq5At drv adr ps.st j)
    (hl : dq5At drv adr ps.st m ∨ m = 100) :
    (amdstatus29 drv ps adr data).1 = (if dq7test (extraRead drv adr ps.st m) data then 1 else 0)
    ∧ (amdstatus29 drv ps adr data).2.log
        = ps.log ++ readLog drv (u32 (adr <<< o)) ps.st (2 * m)
            ++ [Access.read (u32 (adr <<< o)) (extraRead drv adr ps.st m)] := by
  by_cases h5 : dq5At drv adr ps.st m
  · obtain ⟨i, rfl⟩ : ∃ i, m = i + 1 := ⟨m - 1, by omega⟩
    have h := amdstatus29_loop_break drv adr data i 100 ps (by omega)
      (fun j hj => ⟨hnm (j + 1) (by omega) (by omega), hn5 (j + 1) (by omega) (by omega)⟩)
      (hnm (i + 1) (by omega) (le_refl _)) h5
    rw [amdstatus29, h, readLog_succ_last]
    simp [extraRead]
  · have hm : m = 100 := by
      rcases hl with hl | hl
      · exact absurd hl h5
      · exact hl
    subst hm
    have h := amdstatus29_loop_exhaust drv adr data 100 ps
      (fun j hj => ⟨hnm (j + 1) (by omega) (by omega), by
        by_cases hj' : j + 1 < 100
        · exact hn5 (j + 1) (by omega) hj'
        · have e : j + 1 = 100 := by omega
          rw [e]; exact h5⟩)
    rw [amdstatus29, h, readLog_succ_last]
    simp [extraRead]

theorem amdstatus29_cases {σ : Type} (drv : BusDriver σ) (ps : parts σ) (adr data : Nat) :
    (∃ k, 1 ≤ k ∧ k ≤ 100 ∧ matchAt drv adr data ps.st k
        ∧ ∀ j, 1 ≤ j → j < k → ¬ matchAt drv adr data ps.st j ∧ ¬ dq5At drv adr ps.st j)
    ∨ (∃ m, 1 ≤ m ∧ m ≤ 100 ∧ (∀ j, 1 ≤ j → j ≤ m → ¬ matchAt drv adr data ps.st j)
        ∧ (∀ j, 1 ≤ j → j < m → ¬ dq5At drv adr ps.st j)
        ∧ (dq5At drv adr ps.st m ∨ m = 100)) := by
  by_cases h : ∃ k, 1 ≤ k ∧ k ≤ 100
      ∧ (matchAt drv adr data ps.st k ∨ dq5At drv adr ps.st k)
  · obtain ⟨k, h1, h2, h3, h4⟩ := exists_first _ 100 h
    have hnm : ∀ j, 1 ≤ j → j < k → ¬ matchAt drv adr data ps.st j :=
      fun j a b c => h4 j a b (Or.inl c)
    have hn5 : ∀ j, 1 ≤ j → j < k → ¬ dq5At drv adr ps.st j :=
      fun j a b c => h4 j a b (Or.inr c)
    by_cases hm : matchAt drv adr data ps.st k
    · exact Or.inl ⟨k, h1, h2, hm, fun j a b => ⟨hnm j a b, hn5 j a b⟩⟩
    · refine Or.inr ⟨k, h1, h2, ?_, hn5, Or.inl (h3.resolve_left hm)⟩
      intro j a b
      rcases Nat.lt_or_ge j k with c | c
      · exact hnm j a c
      · have e : j = k := by omega
        rw [e]; exact hm
  · refine Or.inr ⟨100, by omega, le_refl _, ?_, ?_, Or.inr rfl⟩
    · exact fun j a b c => h ⟨j, a, b, Or.inl c⟩
    · exact fun j a b c => h ⟨j, a, by omega, Or.inr c⟩

/-- The run of `amdstatus29` in terms of the two tests the code computes
(`dq7test`, `dq5test`).  It returns 1 iff the trusted read of some iteration
`k ≤ 100` passes `dq7test` with `dq5test` not passed in any earlier iteration,
or else the loop is left in iteration `m` (the first one passing `dq5test`, or
the 100th) and the one extra read passes `dq7test`; otherwise it returns 0.
When the loop is left, exactly one extra read follows the `2m` loop reads and
it is the last access; a pass inside the loop at the first such iteration `k`
ends after `2k` reads. -/
theorem amdstatus29_run_structure {σ : Type} (drv : BusDriver σ) (ps : parts σ)
    (adr data : Nat) :
    dq7mask = 0x00800080 ∧ dq5mask = 0x00200020
    ∧ ((amdstatus29 drv ps adr data).1 = 1 ∨ (amdstatus29 drv ps adr data).1 = 0)
    ∧ ((amdstatus29 drv ps adr data).1 = 1 ↔
        (∃ k, 1 ≤ k ∧ k ≤ 100 ∧ matchAt drv adr data ps.st k
          ∧ ∀ j, 1 ≤ j → j < k → ¬ dq5At drv adr ps.st j)
        ∨ (∃ m, 1 ≤ m ∧ m ≤ 100
          ∧ (∀ j, 1 ≤ j → j ≤ m → ¬ matchAt drv adr data ps.st j)
          ∧ (∀ j, 1 ≤ j → j < m → ¬ dq5At drv adr ps.st j)
          ∧ (dq5At drv adr ps.st m ∨ m = 100)
          ∧ dq7test (extraRead drv adr ps.st m) data = true))
    ∧ (∀ k, 1 ≤ k → k ≤ 100 → matchAt drv adr data ps.st k →
        (∀ j, 1 ≤ j → j < k → ¬ matchAt drv adr data ps.st j ∧ ¬ dq5At drv adr ps.st j) →
        (amdstatus29 drv ps adr data).2.log
          = ps.log ++ readLog drv (u32 (adr <<< o)) ps.st (2 * k))
    ∧ (∀ m, 1 ≤ m → m ≤ 100 →
        (∀ j, 1 ≤ j → j ≤ m → ¬ matchAt drv adr data ps.st j) →
        (∀ j, 1 ≤ j → j < m → ¬ dq5At drv adr ps.st j) →
        (dq5At drv adr ps.st m ∨ m = 100) →
        ((amdstatus29 drv ps adr data).1 = 1
          ↔ dq7test (extraRead drv adr ps.st m) data = true)
        ∧ (amdstatus29 drv ps adr data).2.log
            = ps.log ++ readLog drv (u32 (adr <<< o)) ps.st (2 * m)
                ++ [Access.read (u32 (adr <<< o)) (extraRead drv adr ps.st m)]) := by
  have hleft : ∀ m, 1 ≤ m → m ≤ 100 →
      (∀ j, 1 ≤ j → j ≤ m → ¬ matchAt drv adr data ps.st j) →
      (∀ j, 1 ≤ j → j < m → ¬ dq5At drv adr ps.st j) →
      (dq5At drv adr ps.st m ∨ m = 100) →
      ((amdstatus29 drv ps adr data).1 = 1
        ↔ dq7test (extraRead drv adr ps.st m) data = true) := by
    intro m a b c d e
    rw [(amdstatus29_left_at drv ps adr data m a b c d e).1]
    by_cases ht : dq7test (extraRead drv adr ps.st m) data = true <;> simp [ht]
  have hin : ∀ k, 1 ≤ k → k ≤ 100 → matchAt drv adr data ps.st k →
      (∀ j, 1 ≤ j → j < k → ¬ dq5At drv adr ps.st j) →
      (amdstatus29 drv ps adr data).1 = 1 := by
    intro k a b c d
    obtain ⟨k0, a0, b0, c0, d0⟩ := exists_first (matchAt drv adr data ps.st) k ⟨k, a, le_refl _, c⟩
    rw [amdstatus29_pass_at drv ps adr data k0 a0 (by omega) c0
      (fun j x y => ⟨d0 j x y, d j x (by omega)⟩)]
  refine ⟨by decide, by decide, ?_, ⟨?_, ?_⟩, ?_, ?_⟩
  · rcases amdstatus29_cases drv ps adr data with ⟨k, a, b, c, d⟩ | ⟨m, a, b, c, d, e⟩
    · left; rw [amdstatus29_pass_at drv ps adr data k a b c d]
    · rw [(amdstatus29_left_at drv ps adr data m a b c d e).1]
      by_cases ht : dq7test (extraRead drv adr ps.st m) data = true <;> simp [ht]
  · intro h
    rcases amdstatus29_cases drv ps adr data with ⟨k, a, b, c, d⟩ | ⟨m, a, b, c, d, e⟩
    · exact Or.inl ⟨k, a, b, c, fun j x y => (d j x y).2⟩
    · exact Or.inr ⟨m, a, b, c, d, e, (hleft m a b c d e).1 h⟩
  · rintro (⟨k, a, b, c, d⟩ | ⟨m, a, b, c, d, e, f⟩)
    · exact hin k a b c d
    · exact (hleft m a b c d e).2 f
  · intro k a b c d
    rw [amdstatus29_pass_at drv ps adr data k a b c d]
  · intro m a b c d e
    exact ⟨hleft m a b c d e, (amdstatus29_left_at drv ps adr data m a b c d e).2⟩

/-- C7 (the code at the failing input): written data `0` has bit 7 clear; the
read value `0x00000080` has DQ7 set in the low half-word and clear in the high
one, so neither do the half-words agree nor does the low one equal the data
bit.  The DQ7 test of `amdstatus29` accepts it all the same, and on a bus that
keeps returning this word `amdstatus29` reports completion in its first
iteration. -/
theorem amdstatus29_accepts_split_dq7 :
    bit7 0 = 0
    ∧ (0x00000080 &&& (1 <<< 7)) ≠ 0
    ∧ (0x00000080 &&& ((1 <<< 7) <<< 16)) = 0
    ∧ dq7test 0x00000080 0 = true
    ∧ amdstatus29 (stuckBus 0x00000080) (fresh ()) 0 0
        = (1, { st := (), log := [Access.read 0 0x80, Access.read 0 0x80], slept := 0 }) := by
  refine ⟨by decide, by decide, by decide, by decide, ?_⟩
  rfl

/-- C9: `amd_flash_unlock_block` issues no bus access at all (the chain handle,
its access log included, is returned unchanged) and returns 0. -/
theorem unlock_block_is_a_no_op {σ : Type} (drv : BusDriver σ) (ps : parts σ) (adr : Nat) :
    (amd_flash_unlock_block drv ps adr).1 = 0
    ∧ (amd_flash_unlock_block drv ps adr).2.log = ps.log
    ∧ (amd_flash_unlock_block drv ps adr).2 = ps := by
  exact ⟨rfl, rfl, rfl⟩

/-- C10: `amd_flash_autodetect` returns 1 iff the primary vendor/command-set
code equals `CFI_VENDOR_AMD_SCS` and 0 for every other code; the result is the
same for any chain handle and any identification data with the same primary
code. -/
theorem autodetect_iff_primary_code {σ : Type} (CFI_VENDOR_AMD_SCS : Nat) (ps : parts σ)
    (cfi : cfi_query_structure_t) :
    (amd_flash_autodetect CFI_VENDOR_AMD_SCS ps cfi = 1
        ↔ cfi.identification_string.pri_id_code = CFI_VENDOR_AMD_SCS)
    ∧ (amd_flash_autodetect CFI_VENDOR_AMD_SCS ps cfi = 0
        ↔ cfi.identification_string.pri_id_code ≠ CFI_VENDOR_AMD_SCS)
    ∧ (∀ (τ : Type) (qs : parts τ) (cfi2 : cfi_query_structure_t),
        cfi2.identification_string.pri_id_code = cfi.identification_string.pri_id_code →
        amd_flash_autodetect CFI_VENDOR_AMD_SCS qs cfi2
          = amd_flash_autodetect CFI_VENDOR_AMD_SCS ps cfi) := by
  refine ⟨?_, ?_, ?_⟩
  · by_cases h : cfi.identification_string.pri_id_code = CFI_VENDOR_AMD_SCS <;>
      simp [amd_flash_autodetect, h]
  · by_cases h : cfi.identification_string.pri_id_code = CFI_VENDOR_AMD_SCS <;>
      simp [amd_flash_autodetect, h]
  · intro τ qs cfi2 h
    simp [amd_flash_autodetect, h]

/-! ## Theorems on `detectflash`, `amd_flash_read_array` and the poller bounds -/

/-- C11: address-shift law of `detectflash`.  The shift is 1 for bus width 16
and 2 for width 32, and there is none for any other width.  With a driver, a
supported width and a detected flash, the accesses that follow `detect_cfi`
are two writes to address 0, a read of address 0, the chip-id read of address
`1 << o` (2 for width 16, 4 for width 32) and a write to address 0.  For every
other width, and without a driver, `detectflash` returns with the chain handle
untouched: no bus access, no EXTEST, no call of `detect_cfi`. -/
theorem detectflash_shift_law {σ : Type} (env : jtag_t σ) (ps : parts σ) :
    detectflash_shift 16 = some 1 ∧ detectflash_shift 32 = some 2
    ∧ (∀ width, width ≠ 16 → width ≠ 32 → detectflash_shift width = none)
    ∧ (∀ drv o cfi, env.bus_driver = some drv →
        detectflash_shift (drv.bus_width ps.st) = some o →
        (env.detect_cfi { st := env.extest ps.st, log := ps.log, slept := ps.slept }).1
          = some cfi →
        ((drv.bus_width ps.st = 16 ∧ o = 1 ∧ 1 <<< o = 2)
          ∨ (drv.bus_width ps.st = 32 ∧ o = 2 ∧ 1 <<< o = 4))
        ∧ ∃ v0 v1, (detectflash env ps).log
            = (env.detect_cfi
                { st := env.extest ps.st, log := ps.log, slept := ps.slept }).2.log
              ++ [Access.write 0 0x00500050, Access.write 0 0x00900090,
                  Access.read 0 v0, Access.read (1 <<< o) v1, Access.write 0 0x00FF00FF])
    ∧ (∀ drv, env.bus_driver = some drv →
        drv.bus_width ps.st ≠ 16 → drv.bus_width ps.st ≠ 32 → detectflash env ps = ps)
    ∧ (env.bus_driver = none → detectflash env ps = ps) := by
  have hnone : ∀ width, width ≠ 16 → width ≠ 32 → detectflash_shift width = none := by
    intro width h16 h32
    simp [detectflash_shift, h16, h32]
  refine ⟨rfl, rfl, hnone, ?_, ?_, ?_⟩
  · intro drv o cfi hd ho hc
    have hw : (drv.bus_width ps.st = 16 ∧ o = 1 ∧ 1 <<< o = 2)
        ∨ (drv.bus_width ps.st = 32 ∧ o = 2 ∧ 1 <<< o = 4) := by
      unfold detectflash_shift at ho
      split at ho
      · left
        have : o = 1 := by simpa using ho.symm
        subst this
        exact ⟨by assumption, rfl, rfl⟩
      · split at ho
        · right
          have : o = 2 := by simpa using ho.symm
          subst this
          exact ⟨by assumption, rfl, rfl⟩
        · simp at ho
    refine ⟨hw, ?_⟩
    refine ⟨(bus_read drv.toBusDriver
        (bus_write drv.toBusDriver
          (bus_write drv.toBusDriver
            (env.detect_cfi { st := env.extest ps.st, log := ps.log, slept := ps.slept }).2
            (0 <<< o) 0x00500050) (0 <<< 0) 0x00900090) (0x00 <<< o)).1,
      (bus_read drv.toBusDriver
        (bus_read drv.toBusDriver
          (bus_write drv.toBusDriver
            (bus_write drv.toBusDriver
              (env.detect_cfi { st := env.extest ps.st, log := ps.log, slept := ps.slept }).2
              (0 <<< o) 0x00500050) (0 <<< 0) 0x00900090) (0x00 <<< o)).2 (0x01 <<< o)).1, ?_⟩
    simp only [detectflash, hd, ho, hc]
    simp [bus_write, bus_read]
  · intro drv hd h16 h32
    simp [detectflash, hd, hnone _ h16 h32]
  · intro hd
    simp [detectflash, hd]

/-- C13: `amd_flash_read_array` issues exactly one bus access, the write of the
reset command `0x00F000F0` to address 0. -/
theorem read_array_single_write {σ : Type} (drv : BusDriver σ) (ps : parts σ) :
    (amd_flash_read_array drv ps).log = ps.log ++ [Access.write 0 0x00F000F0]
    ∧ (amd_flash_read_array drv ps).st = drv.write ps.st 0 0x00F000F0
    ∧ (amd_flash_read_array drv ps).slept = ps.slept := by
  exact ⟨rfl, rfl, rfl⟩

/-- C14: both pollers are bounded and write-free.  `amdstatus` returns after
`k ≤ 100` iterations, its accesses being exactly `2k ≤ 200` reads of `adr`;
`amdstatus29` returns after `k ≤ 100` iterations, its accesses being exactly
`2k` or `2k + 1 ≤ 201` reads of `adr << o`.  Both models are total functions,
and no write enters the access log. -/
theorem pollers_bounded_and_write_free {σ : Type} (drv : BusDriver σ) (ps : parts σ)
    (adr : Nat) (data : Int) (data29 : Nat) :
    (∃ k, 1 ≤ k ∧ k ≤ 100
      ∧ (amdstatus drv ps adr data).2.log = ps.log ++ readLog drv adr ps.st (2 * k)
      ∧ (readLog drv adr ps.st (2 * k)).length ≤ 200
      ∧ ∀ e ∈ readLog drv adr ps.st (2 * k), ∃ v, e = Access.read adr v)
    ∧ (∃ k n, 1 ≤ k ∧ k ≤ 100 ∧ (n = 2 * k ∨ n = 2 * k + 1)
      ∧ (amdstatus29 drv ps adr data29).2.log
          = ps.log ++ readLog drv (u32 (adr <<< o)) ps.st n
      ∧ (readLog drv (u32 (adr <<< o)) ps.st n).length ≤ 201
      ∧ ∀ e ∈ readLog drv (u32 (adr <<< o)) ps.st n,
          ∃ v, e = Access.read (u32 (adr <<< o)) v) := by
  constructor
  · rcases amdstatus_cases drv ps adr data with ⟨k, h1, h2, _, _, h⟩ | ⟨_, h⟩
    · refine ⟨k, h1, h2, by rw [h], ?_, readLog_mem _ _ _ _⟩
      rw [readLog_length]; omega
    · refine ⟨100, by omega, by omega, by rw [h], ?_, readLog_mem _ _ _ _⟩
      rw [readLog_length]
  · rcases amdstatus29_cases drv ps adr data29 with ⟨k, a, b, c, d⟩ | ⟨m, a, b, c, d, e⟩
    · refine ⟨k, 2 * k, a, b, Or.inl rfl, ?_, ?_, readLog_mem _ _ _ _⟩
      · rw [amdstatus29_pass_at drv ps adr data29 k a b c d]
      · rw [readLog_length]; omega
    · refine ⟨m, 2 * m + 1, a, b, Or.inr rfl, ?_, ?_, readLog_mem _ _ _ _⟩
      · rw [(amdstatus29_left_at drv ps adr data29 m a b c d e).2, readLog_succ_last]
        simp [extraRead]
      · rw [readLog_length]; omega

theorem detectflash_shift_law_witness :
    ((stubDriver 16).bus_width (fresh 0).st = 16 ∧ 1 = 1 ∧ 1 <<< 1 = 2)
      ∨ ((stubDriver 16).bus_width (fresh 0).st = 32 ∧ 1 = 2 ∧ 1 <<< 1 = 4) :=
  ((detectflash_shift_law (foundJtag 16) (fresh 0)).2.2.2.1 (stubDriver 16) 1
    { identification_string := { pri_id_code := 2, alt_id_code := 0 }, rest := [] }
    rfl rfl rfl).1

/-! ## Theorems on `readmem` -/

/-- C12 (as stated, refuted): with a bus of width 8, which is neither 16 nor
32, `readmem` of one byte at address 0 does not abort; it issues
`bus_read_start` and `bus_read_end` and writes one word of one byte. -/
theorem readmem_width_8_reads :
    readmem (stubJtag 8) 2 (freshDump 0) 0 1
      = some { st := 0, reads := [StreamOp.read_start 0, StreamOp.read_end 0],
               file := [(0, 1)] } := by
  rfl

/-- C12 (amended): `readmem` aborts before any bus read and before any write
to the output file, leaving everything untouched, when the bus driver is
absent and when the bus width is below 8, that is when `step = width / 8` is
0. -/
theorem readmem_width_precondition {σ : Type} (env : jtag_t σ) (fuel : Nat) (w : Dump σ)
    (addr len : Nat) :
    (env.bus_driver = none → readmem env fuel w addr len = some w)
    ∧ (∀ drv, env.bus_driver = some drv → drv.bus_width w.st < 8 →
        drv.bus_width w.st / 8 = 0 ∧ readmem env fuel w addr len = some w) := by
  constructor
  · intro h
    simp [readmem, h]
  · intro drv h hw
    have h0 : drv.bus_width w.st / 8 = 0 := by omega
    exact ⟨h0, by simp [readmem, h, h0]⟩

theorem readmem_width_precondition_witness :
    readmem nullJtag 5 (freshDump 0) 0x100 0x10 = some (freshDump 0)
    ∧ ((stubDriver 0).bus_width (freshDump 0).st / 8 = 0
      ∧ readmem (stubJtag 0) 5 (freshDump 0) 0x100 0x10 = some (freshDump 0)) :=
  ⟨(readmem_width_precondition nullJtag 5 (freshDump 0) 0x100 0x10).1 rfl,
   (readmem_width_precondition (stubJtag 0) 5 (freshDump 0) 0x100 0x10).2 (stubDriver 0) rfl
     (by decide)⟩

theorem readmem_loop_top_of_memory {σ : Type} (drv : bus_driver_t σ) (fuel : Nat) :
    ∀ (a : Nat) (w : Dump σ), a % 4 = 0 → a < 4294967296 →
      readmem_loop drv 4 0 0xFFFFFFFC fuel a w = none := by
  induction fuel with
  | zero => intro a w _ _; rfl
  | succ fuel ih =>
    intro a w h4 hlt
    have hE : u32 (0 + 0xFFFFFFFC) = 4294967292 := by decide
    have hle : a ≤ 4294967292 := by omega
    rw [readmem_loop, hE, if_pos hle]
    apply ih
    · simp only [u32]; omega
    · simp only [u32]; omega

/-- C15 (the code at the failing input): on a 32-bit bus, `readmem` with
`addr = 0` and `len = 0xFFFFFFFC` has `step = 4`, aligned address 0 and aligned
length `0xFFFFFFFC`; its loop condition `a <= addr + len` then holds for every
value `a` can take, so no bound on the number of evaluations of the condition
is enough for the loop to stop. -/
theorem readmem_loop_never_stops :
    (stubDriver 32).bus_width (freshDump 0).st / 8 = 4
    ∧ readmem_addr 4 0 = 0
    ∧ readmem_len 4 0xFFFFFFFC = 0xFFFFFFFC
    ∧ ∀ fuel, readmem (stubJtag 32) fuel (freshDump 0) 0 0xFFFFFFFC = none := by
  refine ⟨rfl, by decide, by decide, ?_⟩
  intro fuel
  have hs : (stubDriver 32).bus_width (freshDump 0).st / 8 = 4 := rfl
  have ha : readmem_addr 4 0 = 0 := by decide
  have hl : readmem_len 4 0xFFFFFFFC = 0xFFFFFFFC := by decide
  simp only [readmem, stubJtag, hs, ha, hl]
  simp only [Nat.reduceEqDiff, if_false]
  exact readmem_loop_top_of_memory _ fuel _ _ (by decide) (by decide)

theorem land_mask (k : Nat) (hk : k ≤ 32) (x : Nat) (hx : x < 2 ^ 32) :
    x &&& ((2 ^ (32 - k) - 1) <<< k) = (x >>> k) <<< k := by
  apply Nat.eq_of_testBit_eq
  intro i
  simp only [Nat.testBit_and, Nat.testBit_shiftLeft, Nat.testBit_shiftRight,
    Nat.testBit_two_pow_sub_one]
  by_cases h1 : k ≤ i
  · by_cases h2 : i < 32
    · have h3 : i - k < 32 - k := by omega
      have h4 : k + (i - k) = i := by omega
      simp [h1, h3, h4]
    · have h5 : x.testBit i = false :=
        Nat.testBit_lt_two_pow (lt_of_lt_of_le hx (Nat.pow_le_pow_right (by omega) (by omega)))
      have h4 : k + (i - k) = i := by omega
      simp [h5, h4]
  · simp [h1]

theorem land_bnot32_one (x : Nat) (hx : x < 2 ^ 32) : x &&& bnot32 (2 - 1) = x - x % 2 := by
  have hm : bnot32 (2 - 1) = (2 ^ (32 - 1) - 1) <<< 1 := by decide
  rw [hm, land_mask 1 (by omega) x hx, Nat.shiftLeft_eq, Nat.shiftRight_eq_div_pow]
  omega

theorem land_bnot32_three (x : Nat) (hx : x < 2 ^ 32) : x &&& bnot32 (4 - 1) = x - x % 4 := by
  have hm : bnot32 (4 - 1) = (2 ^ (32 - 2) - 1) <<< 2 := by decide
  rw [hm, land_mask 2 (by omega) x hx, Nat.shiftLeft_eq, Nat.shiftRight_eq_div_pow]
  omega

theorem u32_lt (n : Nat) : u32 n < 2 ^ 32 := by
  simp only [u32]; omega

theorem readmem_align {step : Nat} (hstep : step = 2 ∨ step = 4) (addr len : Nat)
    (haddr : addr < 2 ^ 32) :
    readmem_addr step addr = addr - addr % step
    ∧ readmem_len step len = u32 (len + step - 1) - u32 (len + step - 1) % step := by
  rcases hstep with rfl | rfl
  · exact ⟨land_bnot32_one addr haddr, land_bnot32_one _ (u32_lt _)⟩
  · exact ⟨land_bnot32_three addr haddr, land_bnot32_three _ (u32_lt _)⟩

theorem readmem_loop_runs {σ : Type} (drv : bus_driver_t σ) (step addr len : Nat)
    (hstep : 0 < step) (hE : u32 (addr + len) + step < 2 ^ 32) (m : Nat) :
    ∀ (a : Nat) (w : Dump σ), a + m * step = u32 (addr + len) →
      ∃ (ds : List Nat) (w' : Dump σ), ds.length = m + 1
        ∧ (∀ fuel, m + 2 ≤ fuel → readmem_loop drv step addr len fuel a w = some w')
        ∧ w'.reads = w.reads
            ++ (List.range m).map (fun i => StreamOp.read_next (a + i * step) (ds.getD i 0))
            ++ [StreamOp.read_end (ds.getD m 0)]
        ∧ w'.file = w.file ++ ds.map (fun d => (d, step)) := by
  induction m with
  | zero =>
    intro a w ha
    have ha' : a = u32 (addr + len) := by omega
    refine ⟨[(bus_read_end drv w).1],
      fwrite (bus_read_end drv w).2 (bus_read_end drv w).1 step, rfl, ?_, ?_, ?_⟩
    · intro fuel hf
      obtain ⟨f, rfl⟩ : ∃ f, fuel = f + 1 + 1 := ⟨fuel - 2, by omega⟩
      have h1 : a ≤ u32 (addr + len) := by omega
      have h2 : ¬ a < u32 (addr + len) := by omega
      have h3 : u32 (a + step) = a + step := by
        simp only [u32]; exact Nat.mod_eq_of_lt (by omega)
      have h4 : ¬ a + step ≤ u32 (addr + len) := by omega
      rw [readmem_loop, if_pos h1, if_neg h2, h3, readmem_loop, if_neg h4]
    · simp [fwrite, bus_read_end]
    · simp [fwrite, bus_read_end]
  | succ m ih =>
    intro a w ha
    have hlt : a < u32 (addr + len) := by
      have : 0 < (m + 1) * step := Nat.mul_pos (by omega) hstep
      omega
    have hnext : a + step + m * step = u32 (addr + len) := by
      rw [← ha, Nat.succ_mul]; omega
    obtain ⟨ds, w', hlen, hrun, hreads, hfile⟩ :=
      ih (a + step) (fwrite (bus_read_next drv w a).2 (bus_read_next drv w a).1 step) hnext
    refine ⟨(bus_read_next drv w a).1 :: ds, w', by simp [hlen], ?_, ?_, ?_⟩
    · intro fuel hf
      obtain ⟨f, rfl⟩ : ∃ f, fuel = f + 1 := ⟨fuel - 1, by omega⟩
      have h3 : u32 (a + step) = a + step := by
        simp only [u32]; exact Nat.mod_eq_of_lt (by omega)
      rw [readmem_loop, if_pos (le_of_lt hlt), if_pos hlt, h3]
      exact hrun f (by omega)
    · rw [hreads, List.range_succ_eq_map]
      simp only [fwrite, bus_read_next, List.map_cons, List.map_map, List.getD_cons_zero,
        List.getD_cons_succ, Function.comp_def]
      have hidx : ∀ i, a + step + i * step = a + (i + 1) * step := by
        intro i; rw [Nat.succ_mul]; omega
      simp [hidx]
    · rw [hfile]
      simp [fwrite, bus_read_next]

/-- C16: alignment and word count of `readmem`.  For bus width 16 or 32
(`step` 2 or 4) and an aligned end address that stays more than one step
below `2^32`, `readmem` works on `addr' = addr` rounded down and
`len' = len + step - 1` (in 32-bit arithmetic) rounded down to a multiple of
`step`.  If `len'` is 0 it returns without a bus read or a file write.
Otherwise, given enough evaluations of the loop condition, it returns having
issued `bus_read_start(addr')`, then `bus_read_next(addr' + i*step)` for
`i = 1 .. len'/step - 1` in increasing order, then one `bus_read_end`, and
having written the `len'/step` words read, `step` bytes each, in that order. -/
theorem readmem_reads_aligned_range {σ : Type} (env : jtag_t σ) (drv : bus_driver_t σ)
    (w : Dump σ) (addr len step : Nat)
    (hdrv : env.bus_driver = some drv)
    (hwidth : drv.bus_width w.st = 16 ∨ drv.bus_width w.st = 32)
    (hs : step = drv.bus_width w.st / 8)
    (haddr : addr < 2 ^ 32)
    (hend : readmem_addr step addr + readmem_len step len + step < 2 ^ 32) :
    (step = 2 ∨ step = 4)
    ∧ readmem_addr step addr = addr - addr % step
    ∧ readmem_len step len = u32 (len + step - 1) - u32 (len + step - 1) % step
    ∧ (readmem_len step len = 0 →
        ∀ fuel, readmem env fuel w addr len
          = some { st := env.extest w.st, reads := w.reads, file := w.file })
    ∧ (readmem_len step len ≠ 0 →
        ∃ (ds : List Nat) (w' : Dump σ),
          ds.length = readmem_len step len / step
          ∧ (∀ fuel, readmem_len step len / step + 1 ≤ fuel →
              readmem env fuel w addr len = some w')
          ∧ w'.reads = w.reads ++ [StreamOp.read_start (readmem_addr step addr)]
              ++ (List.range (readmem_len step len / step - 1)).map
                  (fun i => StreamOp.read_next (readmem_addr step addr + (i + 1) * step)
                    (ds.getD i 0))
              ++ [StreamOp.read_end (ds.getD (readmem_len step len / step - 1) 0)]
          ∧ w'.file = w.file ++ ds.map (fun d => (d, step))) := by
  have hstep : step = 2 ∨ step = 4 := by
    rcases hwidth with h | h
    · left; rw [hs, h]
    · right; rw [hs, h]
  have hne : step ≠ 0 := by rcases hstep with h | h <;> omega
  obtain ⟨hA, hL⟩ := readmem_align hstep addr len haddr
  refine ⟨hstep, hA, hL, ?_, ?_⟩
  · intro h0 fuel
    simp only [readmem, hdrv, ← hs, if_neg hne, if_pos h0]
  · intro hn0
    have hmul : (readmem_len step len / step - 1) * step + step = readmem_len step len := by
      rcases hstep with h | h <;> subst h <;> omega
    have hn1 : 1 ≤ readmem_len step len / step := by
      rcases hstep with h | h <;> subst h <;> omega
    have hE : u32 (readmem_addr step addr + readmem_len step len)
        = readmem_addr step addr + readmem_len step len := by
      simp only [u32]; exact Nat.mod_eq_of_lt (by omega)
    have ha0 : u32 (readmem_addr step addr + step) = readmem_addr step addr + step := by
      simp only [u32]; exact Nat.mod_eq_of_lt (by omega)
    obtain ⟨ds, w', hlen, hrun, hreads, hfile⟩ :=
      readmem_loop_runs drv step (readmem_addr step addr) (readmem_len step len)
        (by omega) (by rw [hE]; exact hend) (readmem_len step len / step - 1)
        (readmem_addr step addr + step)
        (bus_read_start drv { st := env.extest w.st, reads := w.reads, file := w.file }
          (readmem_addr step addr))
        (by rw [hE]; omega)
    refine ⟨ds, w', by omega, ?_, ?_, ?_⟩
    · intro fuel hf
      simp only [readmem, hdrv, ← hs, if_neg hne, if_neg hn0, ha0]
      exact hrun fuel (by omega)
    · rw [hreads]
      have hidx : ∀ i, readmem_addr step addr + step + i * step
          = readmem_addr step addr + (i + 1) * step := by
        intro i; rw [Nat.succ_mul]; omega
      simp [bus_read_start, hidx]
    · rw [hfile]
      simp [bus_read_start]

theorem readmem_reads_aligned_range_witness :
    (4 = 2 ∨ 4 = 4)
    ∧ readmem_addr 4 0x1002 = 0x1002 - 0x1002 % 4
    ∧ readmem_len 4 9 = u32 (9 + 4 - 1) - u32 (9 + 4 - 1) % 4
    ∧ (readmem_len 4 9 = 0 →
        ∀ fuel, readmem (stubJtag 32) fuel (freshDump 0) 0x1002 9
          = some { st := (stubJtag 32).extest (freshDump 0).st,
                   reads := (freshDump 0).reads, file := (freshDump 0).file })
    ∧ (readmem_len 4 9 ≠ 0 →
        ∃ (ds : List Nat) (w' : Dump Nat),
          ds.length = readmem_len 4 9 / 4
          ∧ (∀ fuel, readmem_len 4 9 / 4 + 1 ≤ fuel →
              readmem (stubJtag 32) fuel (freshDump 0) 0x1002 9 = some w')
          ∧ w'.reads = (freshDump 0).reads ++ [StreamOp.read_start (readmem_addr 4 0x1002)]
              ++ (List.range (readmem_len 4 9 / 4 - 1)).map
                  (fun i => StreamOp.read_next (readmem_addr 4 0x1002 + (i + 1) * 4)
                    (ds.getD i 0))
              ++ [StreamOp.read_end (ds.getD (readmem_len 4 9 / 4 - 1) 0)]
          ∧ w'.file = (freshDump 0).file ++ ds.map (fun d => (d, 4))) :=
  readmem_reads_aligned_range (stubJtag 32) (stubDriver 32) (freshDump 0) 0x1002 9 4
    rfl (Or.inr rfl) rfl (by decide) (by decide)

/-- The run of `readmem` behind the witness above, evaluated: three words are
read from `0x1000`, `0x1004` and `0x1008`. -/
theorem readmem_example_run :
    readmem (stubJtag 32) 4 (freshDump 0) 0x1002 9
      = some { st := 0x1008,
               reads := [StreamOp.read_start 0x1000, StreamOp.read_next 0x1004 0x1000,
                         StreamOp.read_next 0x1008 0x1004, StreamOp.read_end 0x1008],
               file := [(0x1000, 4), (0x1004, 4), (0x1008, 4)] } := by
  rfl

/-- Where the test of `amdstatus29` and the spec's completion condition agree:
whenever bit 7 of the data is set, and whenever the two half-words of the read
value agree on DQ7. -/
theorem dq7test_iff_dq7matches (v data : Nat)
    (h : data &&& 0x80 ≠ 0 ∨ v &&& 0x00800080 = 0x00800080 ∨ v &&& 0x00800080 = 0) :
    dq7test v data = true ↔ dq7matches v data := by
  have hm : dq7mask = 0x00800080 := by decide
  have h7 : (1 <<< 7 : Nat) = 0x80 := by decide
  simp only [dq7test, dq7matches, bit7, hm, h7, decide_eq_true_eq]
  by_cases hd : data &&& 0x80 ≠ 0
  · by_cases hv : v &&& 0x00800080 = 0x00800080 <;> simp [hd, hv]
  · rcases h with h | h | h
    · exact absurd h hd
    · simp [hd, h]
    · simp [hd, h]

theorem dq7test_iff_dq7matches_witness :
    dq7test 0x00800080 0x80 = true ↔ dq7matches 0x00800080 0x80 :=
  dq7test_iff_dq7matches 0x00800080 0x80 (Or.inl (by decide))

/-- C6 (the code at the failing input): the test of `amdstatus29` is
`((v & 0x00800080) == 0x00800080) == bit7`, which for data with bit 7 clear
accepts every read value in which not both DQ7 bits are set.  With data `0` on
a bus that keeps returning `0x00000080`, no read of the run, trusted or extra,
has its DQ7 (under the mask `0x00800080`) equal to bit 7 of the data, and DQ5
is never set; yet `amdstatus29` returns 1 after its first iteration. -/
theorem amdstatus29_passes_without_match :
    (∀ v data, dq7test v data = true
        ↔ ((v &&& 0x00800080 = 0x00800080) ↔ data &&& 0x80 ≠ 0))
    ∧ (∀ v, dq5test v = true ↔ v &&& 0x00200020 = 0x00200020)
    ∧ (∀ k, trustedRead (stuckBus 0x00000080) 0 () k = 0x00000080)
    ∧ (∀ m, extraRead (stuckBus 0x00000080) 0 () m = 0x00000080)
    ∧ (∀ k, ¬ dq7matches (trustedRead (stuckBus 0x00000080) 0 () k) 0)
    ∧ (∀ m, ¬ dq7matches (extraRead (stuckBus 0x00000080) 0 () m) 0)
    ∧ (∀ k, ¬ dq5At (stuckBus 0x00000080) 0 () k)
    ∧ amdstatus29 (stuckBus 0x00000080) (fresh ()) 0 0
        = (1, { st := (), log := [Access.read 0 0x80, Access.read 0 0x80], slept := 0 }) := by
  have ht : ∀ k, trustedRead (stuckBus 0x00000080) 0 () k = 0x00000080 := fun _ => rfl
  have he : ∀ m, extraRead (stuckBus 0x00000080) 0 () m = 0x00000080 := fun _ => rfl
  have hn : ¬ dq7matches 0x00000080 0 := by
    unfold dq7matches; decide
  refine ⟨?_, ?_, ht, he, ?_, ?_, ?_, rfl⟩
  · intro v data
    have hm : dq7mask = 0x00800080 := by decide
    have h7 : (1 <<< 7 : Nat) = 0x80 := by decide
    simp only [dq7test, bit7, hm, h7, decide_eq_true_eq]
    by_cases hd : data &&& 0x80 ≠ 0 <;>
      by_cases hv : v &&& 0x00800080 = 0x00800080 <;> simp [hd, hv]
  · intro v
    have hm : dq5mask = 0x00200020 := by decide
    simp [dq5test, hm]
  · intro k; rw [ht]; exact hn
  · intro m; rw [he]; exact hn
  · intro k
    simp only [dq5At, ht]
    decide

end FlashAmd
